import Mathlib

/-!
Verification development for the Monifactory build script
(`src/build/index.ts`), centered on the `DownloadModsTarget` target
(lines 153-233): manifest reading, the cache diff loops, the download
loop and the final persistence of `dist/cache.json`.

Modelling conventions:
* A JavaScript object keyed by `${projectID}` strings is modelled as an
  association list `List (Nat × α)` with the JS semantics: lookup finds
  the first matching key, assignment replaces the value in place (or
  appends a fresh key at the end), `delete` removes the key.  Real JS
  objects have unique keys; the claims proved below are insensitive to
  key order, so the association-list order stands in for JS's key order.
* `JSON.parse` of `manifest.json` is modelled by an
  `Option (List ManifestFile)` input: `none` means the raw text is not
  valid JSON (`JSON.parse` throws), `some m` means it parsed to a
  manifest whose `files` array is `m`.
* `dist/cache.json` is modelled by `Option (Option (List (Nat × CacheEntry)))`:
  `none` = the file is absent (`fs.existsSync` is false), `some none` =
  present but unparsable (`JSON.parse` throws), `some (some o)` =
  present and parsed to `o`.
* Filesystem and network side effects are recorded as an `Event` trace
  in program order: `Juke.rm` calls, `DownloadCF` calls, `mkdirSync`,
  `writeFileSync` and (hypothetical) renames.
* `DownloadCF` is modelled by a pure `resolve : Nat → Nat → Except String String`
  mapping (modID, modFileID) to a file name or a failure message; a
  failure models the awaited promise rejecting, which aborts the whole
  `executes` body (there is no try/catch around the download loop).
-/

/-- One element of `manifest.files`: `{ projectID, fileID, required }`. -/
structure ManifestFile where
  projectID : Nat
  fileID : Nat
  required : Bool
deriving DecidableEq, Repr

/-- The value stored in `newData[projectID]` at line 172: `{ fileID, required }`. -/
structure NewEntry where
  fileID : Nat
  required : Bool
deriving DecidableEq, Repr

/-- The value stored in the cache object (`oldData` / `dataKeys`):
`{ fileID, required, file }`, `file` being absent (`none`) until the
download loop assigns `dataKeys[modID]["file"] = res.fileName`. -/
structure CacheEntry where
  fileID : Nat
  required : Bool
  file : Option String
deriving DecidableEq, Repr

/-- Observable side effects of the run, in program order. -/
inductive Event where
  | mkdir (path : String)
  | rm (path : String)
  | download (modID : Nat) (fileID : Nat) (fileName : String)
  | writeFile (path : String)
  | rename (src : String) (dst : String)
deriving DecidableEq, Repr

def Event.isRm : Event → Bool
  | .rm _ => true
  | _ => false

def Event.isDownload : Event → Bool
  | .download _ _ _ => true
  | _ => false

def Event.isRename : Event → Bool
  | .rename _ _ => true
  | _ => false

/-- Ways the `executes` body of `DownloadModsTarget` can throw. -/
inductive RunErr where
  /-- `JSON.parse` of `manifest.json` threw (line 157). -/
  | manifestSyntax
  /-- `JSON.parse` of `dist/cache.json` threw (line 167). -/
  | cacheSyntax
  /-- `DownloadCF` rejected for the given modID (line 225), or the
  entry lookup produced `undefined` (a TypeError at line 227). -/
  | downloadFailed (modID : Nat) (msg : String)
deriving DecidableEq, Repr

/-- JS object property read: `o[k]`, first matching key. -/
def objGet {α : Type} : List (Nat × α) → Nat → Option α
  | [], _ => none
  | p :: rest, k => if p.1 = k then some p.2 else objGet rest k

/-- JS object property write: `o[k] = v` (replace in place, else append). -/
def objSet {α : Type} : List (Nat × α) → Nat → α → List (Nat × α)
  | [], k, v => [(k, v)]
  | p :: rest, k, v => if p.1 = k then (k, v) :: rest else p :: objSet rest k v

/-- JS `delete o[k]`. -/
def objDel {α : Type} : List (Nat × α) → Nat → List (Nat × α)
  | [], _ => []
  | p :: rest, k => if p.1 = k then objDel rest k else p :: objDel rest k

/-- JS `Object.keys(o)`. -/
def objKeys {α : Type} (o : List (Nat × α)) : List Nat :=
  o.map Prod.fst

/-- Lines 169-173: build `newData` from `manifest.files`
(`newData[projectID] = { fileID, required }`), accumulator form. -/
def buildNewDataFrom : List (Nat × NewEntry) → List ManifestFile → List (Nat × NewEntry)
  | nd, [] => nd
  | nd, f :: rest => buildNewDataFrom (objSet nd f.projectID ⟨f.fileID, f.required⟩) rest

def buildNewData (files : List ManifestFile) : List (Nat × NewEntry) :=
  buildNewDataFrom [] files

/-- The path passed to `Juke.rm` at lines 184/202:
the template literal turns an absent `file` property into the string
`"undefined"`. -/
def rmPath (e : CacheEntry) : String :=
  "dist/modcache/" ++ (match e.file with | some f => f | none => "undefined")

/-- Working state threaded through the two diff loops:
`working` is the mutated `oldData` object, `dl` is `mIdToDownload`,
`events` the side-effect trace, `removedLog`/`updatedLog` the pids
logged by `Juke.logger.info` as "removed" (line 185) / "updated"
(line 203). -/
structure DiffSt where
  working : List (Nat × CacheEntry)
  dl : List Nat
  events : List Event
  removedLog : List Nat
  updatedLog : List Nat
deriving DecidableEq, Repr

def initSt (w : List (Nat × CacheEntry)) : DiffSt :=
  ⟨w, [], [], [], []⟩

/-- Body of the first diff loop (lines 179-194) for one pid. -/
def step1 (nd : List (Nat × NewEntry)) (st : DiffSt) (pid : Nat) : DiffSt :=
  match objGet st.working pid with
  | some e =>
      { st with working := objDel st.working pid,
                events := st.events ++ [Event.rm (rmPath e)],
                removedLog := st.removedLog ++ [pid] }
  | none =>
      match objGet nd pid with
      | some ne =>
          if pid ∈ st.dl then st
          else { st with working := objSet st.working pid ⟨ne.fileID, ne.required, none⟩,
                         dl := st.dl ++ [pid] }
      | none => st

def loop1 (nd : List (Nat × NewEntry)) : List Nat → DiffSt → DiffSt
  | [], st => st
  | pid :: rest, st => loop1 nd rest (step1 nd st pid)

/-- The filter of the second diff loop (lines 197-198):
`newData[pid] && oldData[pid]["fileID"] !== newData[pid]["fileID"]`,
evaluated against the working `oldData` after loop 1.  (When
`newData[pid]` is defined but `oldData[pid]` is not, JS would throw; that
case never arises for pids drawn from `oldDataKeys`, and is mapped to
`false` here.) -/
def changedFilter (nd : List (Nat × NewEntry)) (w : List (Nat × CacheEntry)) (pid : Nat) : Bool :=
  match objGet nd pid, objGet w pid with
  | some ne, some e => decide (e.fileID ≠ ne.fileID)
  | _, _ => false

/-- Body of the second diff loop (lines 199-210) for one pid: rm the old
file, schedule the download if not already scheduled, and overwrite the
entry with `{ file: undefined, fileID: new, required: new }`.  (Both
lookups are defined for every pid the filter admits.) -/
def step2 (nd : List (Nat × NewEntry)) (st : DiffSt) (pid : Nat) : DiffSt :=
  match objGet st.working pid, objGet nd pid with
  | some e, some ne =>
      { st with working := objSet st.working pid ⟨ne.fileID, ne.required, none⟩,
                dl := if pid ∈ st.dl then st.dl else st.dl ++ [pid],
                events := st.events ++ [Event.rm (rmPath e)],
                updatedLog := st.updatedLog ++ [pid] }
  | _, _ => st

def loop2 (nd : List (Nat × NewEntry)) : List Nat → DiffSt → DiffSt
  | [], st => st
  | pid :: rest, st => loop2 nd rest (step2 nd st pid)

/-- Lines 164-212: the cache-hit branch.  `l1` is
`oldDataKeys.filter(∉ new).concat(newDataKeys.filter(∉ old))`; `l2` is
`oldDataKeys.filter(changed)`, with the filter evaluated (as
`Array.prototype.filter` does, eagerly) against the working object after
loop 1. -/
def diffCacheHit (old : List (Nat × CacheEntry)) (manifest : List ManifestFile) : DiffSt :=
  let nd := buildNewData manifest
  let oldKeys := objKeys old
  let newKeys := objKeys nd
  let l1 := oldKeys.filter (fun p => !(newKeys.contains p)) ++
            newKeys.filter (fun p => !(oldKeys.contains p))
  let st1 := loop1 nd l1 (initSt old)
  let l2 := oldKeys.filter (changedFilter nd st1.working)
  loop2 nd l2 st1

/-- Lines 213-221: the no-cache branch
(`dataKeys[projectID] = { fileID, required }; mIdToDownload.push(projectID)`
for every manifest entry, unconditionally). -/
def noCacheFrom : DiffSt → List ManifestFile → DiffSt
  | st, [] => st
  | st, f :: rest =>
      noCacheFrom { st with working := objSet st.working f.projectID ⟨f.fileID, f.required, none⟩,
                            dl := st.dl ++ [f.projectID] } rest

/-- The diff phase: cache-hit branch when `dist/cache.json` parsed,
no-cache branch when it is absent. -/
def diffPhase : Option (List (Nat × CacheEntry)) → List ManifestFile → DiffSt
  | some old, m => diffCacheHit old m
  | none, m => noCacheFrom (initSt []) m

/-- Lines 223-230: the download loop.  Each iteration reads
`dataKeys[modID]`, awaits `DownloadCF({modID, modFileID: file.fileID})`
and assigns `dataKeys[modID]["file"] = res.fileName`.  A rejected
download (or an undefined entry, which would be a TypeError at
`file.fileID`) throws out of the `executes` body: nothing after it runs. -/
def downloadLoop (resolve : Nat → Nat → Except String String) :
    List Nat → List (Nat × CacheEntry) → List Event →
    List Event × Except RunErr (List (Nat × CacheEntry))
  | [], dk, ev => (ev, Except.ok dk)
  | modID :: rest, dk, ev =>
    match objGet dk modID with
    | some e =>
      match resolve modID e.fileID with
      | Except.ok fn =>
          downloadLoop resolve rest (objSet dk modID ⟨e.fileID, e.required, some fn⟩)
            (ev ++ [Event.download modID e.fileID fn])
      | Except.error msg => (ev, Except.error (RunErr.downloadFailed modID msg))
    | none => (ev, Except.error (RunErr.downloadFailed modID "TypeError"))

/-- Line 231: `fs.writeFileSync("dist/cache.json", JSON.stringify(dataKeys))` —
a single direct write, no temporary file, no rename. -/
def saveCacheEvents : List Event :=
  [Event.writeFile "dist/cache.json"]

/-- The tail of the run once the manifest parsed and the cache file was
read (or found absent): diff, download loop, and on success the final
`writeFileSync` of `dist/cache.json`. -/
def runAfterLoad (resolve : Nat → Nat → Except String String)
    (cache : Option (List (Nat × CacheEntry))) (manifest : List ManifestFile) :
    List Event × Except RunErr (List (Nat × CacheEntry)) :=
  match downloadLoop resolve (diffPhase cache manifest).dl (diffPhase cache manifest).working
      (Event.mkdir "dist/modcache" :: (diffPhase cache manifest).events) with
  | (ev, Except.ok final) => (ev ++ saveCacheEvents, Except.ok final)
  | (ev, Except.error e) => (ev, Except.error e)

/-- The whole `executes` body of `DownloadModsTarget` (lines 156-232):
parse `manifest.json` (line 157, before any filesystem action), make
`dist/modcache` (line 159), read `dist/cache.json` if present (lines
164-167), diff, download, persist.  The returned `Except` is the new
content of `dist/cache.json` on success; on error nothing is persisted
and any previous `dist/cache.json` is left as it was. -/
def runFull (resolve : Nat → Nat → Except String String)
    (manifestRaw : Option (List ManifestFile))
    (cacheRaw : Option (Option (List (Nat × CacheEntry)))) :
    List Event × Except RunErr (List (Nat × CacheEntry)) :=
  match manifestRaw with
  | none => ([], Except.error RunErr.manifestSyntax)
  | some manifest =>
    match cacheRaw with
    | some none => ([Event.mkdir "dist/modcache"], Except.error RunErr.cacheSyntax)
    | some (some old) => runAfterLoad resolve (some old) manifest
    | none => runAfterLoad resolve none manifest

/-- The files in `dist/modcache` before the run, under the pre-run
invariant that the cache directory holds exactly the files the loaded
cache state references (spec §3): one path per cache entry. -/
def initialDisk (old : List (Nat × CacheEntry)) : List String :=
  old.map (fun p => rmPath p.2)

/-- Effect of one event on the set of files in the cache directory:
`Juke.rm` deletes the path, a completed `DownloadCF` writes
`dist/modcache/<fileName>`; other events do not touch the directory. -/
def applyEvent (disk : List String) : Event → List String
  | Event.rm p => disk.filter (fun q => q != p)
  | Event.download _ _ fn =>
      if ("dist/modcache/" ++ fn) ∈ disk then disk else disk ++ ["dist/modcache/" ++ fn]
  | _ => disk

def applyEvents (disk : List String) : List Event → List String
  | [] => disk
  | e :: rest => applyEvents (applyEvent disk e) rest

/-! ### Association-list (JS object) lemmas -/

theorem objGet_objSet_self {α : Type} (o : List (Nat × α)) (k : Nat) (v : α) :
    objGet (objSet o k v) k = some v := by
  induction o with
  | nil => simp [objSet, objGet]
  | cons p rest ih =>
      by_cases h : p.1 = k
      · simp [objSet, h, objGet]
      · simp [objSet, h, objGet, ih]

theorem objGet_objSet_ne {α : Type} (o : List (Nat × α)) (k q : Nat) (v : α) (h : q ≠ k) :
    objGet (objSet o k v) q = objGet o q := by
  have hk : k ≠ q := Ne.symm h
  induction o with
  | nil => simp [objSet, objGet, hk]
  | cons p rest ih =>
      by_cases hp : p.1 = k
      · simp [objSet, hp, objGet, hk]
      · by_cases hq : p.1 = q <;> simp [objSet, hp, objGet, hq, h, hk, ih]

theorem objGet_objDel_self {α : Type} (o : List (Nat × α)) (k : Nat) :
    objGet (objDel o k) k = none := by
  induction o with
  | nil => simp [objDel, objGet]
  | cons p rest ih =>
      by_cases h : p.1 = k
      · simp [objDel, h, ih]
      · simp [objDel, h, objGet, ih]

theorem objGet_objDel_ne {α : Type} (o : List (Nat × α)) (k q : Nat) (h : q ≠ k) :
    objGet (objDel o k) q = objGet o q := by
  have hk : k ≠ q := Ne.symm h
  induction o with
  | nil => simp [objDel]
  | cons p rest ih =>
      by_cases hp : p.1 = k
      · simp [objDel, hp, objGet, hk, ih]
      · by_cases hq : p.1 = q <;> simp [objDel, hp, objGet, hq, h, hk, ih]

theorem objGet_eq_none_iff {α : Type} (o : List (Nat × α)) (k : Nat) :
    objGet o k = none ↔ k ∉ objKeys o := by
  induction o with
  | nil => simp [objGet, objKeys]
  | cons p rest ih =>
      by_cases h : p.1 = k
      · simp [objGet, h, objKeys]
      · have hk : k ≠ p.1 := fun hh => h hh.symm
        simp [objGet, h, objKeys, hk] at ih ⊢
        exact ih

theorem objGet_isSome_of_mem_keys {α : Type} (o : List (Nat × α)) (k : Nat)
    (h : k ∈ objKeys o) : (objGet o k).isSome := by
  cases ho : objGet o k with
  | none => exact absurd h ((objGet_eq_none_iff o k).mp ho)
  | some v => rfl

theorem mem_keys_of_objGet_some {α : Type} (o : List (Nat × α)) (k : Nat) (v : α)
    (h : objGet o k = some v) : k ∈ objKeys o := by
  by_contra hk
  rw [← objGet_eq_none_iff] at hk
  rw [h] at hk
  cases hk

theorem mem_of_objGet_some {α : Type} (o : List (Nat × α)) (k : Nat) (v : α)
    (h : objGet o k = some v) : (k, v) ∈ o := by
  induction o with
  | nil => cases h
  | cons p rest ih =>
      by_cases hp : p.1 = k
      · simp [objGet, hp] at h
        subst hp
        rw [← h]
        simp
      · simp [objGet, hp] at h
        exact List.mem_cons_of_mem _ (ih h)

theorem objGet_some_of_mem {α : Type} (o : List (Nat × α)) (k : Nat) (v : α)
    (hnd : (objKeys o).Nodup) (h : (k, v) ∈ o) : objGet o k = some v := by
  induction o with
  | nil => cases h
  | cons p rest ih =>
      have hnd' : (p.1 :: objKeys rest).Nodup := hnd
      rw [List.nodup_cons] at hnd'
      rcases List.mem_cons.mp h with h1 | h1
      · rw [← h1]
        simp [objGet]
      · have hp : p.1 ≠ k := by
          intro hh
          apply hnd'.1
          rw [hh]
          simpa [objKeys] using List.mem_map_of_mem Prod.fst h1
        simp [objGet, hp]
        exact ih hnd'.2 h1

theorem mem_objKeys_objSet {α : Type} (o : List (Nat × α)) (k q : Nat) (v : α) :
    q ∈ objKeys (objSet o k v) ↔ q ∈ objKeys o ∨ q = k := by
  induction o with
  | nil => simp [objSet, objKeys]
  | cons p rest ih =>
      by_cases hp : p.1 = k
      · subst hp
        simp [objSet, objKeys]
        tauto
      · simp [objSet, hp, objKeys] at ih ⊢
        tauto

theorem objKeys_cons {α : Type} (p : Nat × α) (rest : List (Nat × α)) :
    objKeys (p :: rest) = p.1 :: objKeys rest := rfl

theorem objKeys_objSet_of_mem {α : Type} (o : List (Nat × α)) (k : Nat) (v : α)
    (h : k ∈ objKeys o) : objKeys (objSet o k v) = objKeys o := by
  induction o with
  | nil => cases h
  | cons p rest ih =>
      by_cases hp : p.1 = k
      · simp [objSet, hp, objKeys_cons]
      · rw [objKeys_cons, List.mem_cons] at h
        have hk : k ∈ objKeys rest := by
          rcases h with h1 | h1
          · exact absurd h1.symm hp
          · exact h1
        simp [objSet, hp, objKeys_cons, ih hk]

theorem objKeys_objSet_of_not_mem {α : Type} (o : List (Nat × α)) (k : Nat) (v : α)
    (h : k ∉ objKeys o) : objKeys (objSet o k v) = objKeys o ++ [k] := by
  induction o with
  | nil => simp [objSet, objKeys]
  | cons p rest ih =>
      rw [objKeys_cons, List.mem_cons] at h
      push_neg at h
      have hp : p.1 ≠ k := fun hh => h.1 hh.symm
      simp [objSet, hp, objKeys_cons, ih h.2]

theorem nodup_objKeys_objSet {α : Type} (o : List (Nat × α)) (k : Nat) (v : α)
    (h : (objKeys o).Nodup) : (objKeys (objSet o k v)).Nodup := by
  by_cases hm : k ∈ objKeys o
  · rw [objKeys_objSet_of_mem o k v hm]
    exact h
  · rw [objKeys_objSet_of_not_mem o k v hm]
    simp [List.nodup_append, h, hm]

/-! ### `buildNewData` lemmas -/

theorem mem_objKeys_buildNewDataFrom (nd : List (Nat × NewEntry)) (fs : List ManifestFile)
    (q : Nat) :
    q ∈ objKeys (buildNewDataFrom nd fs) ↔
      q ∈ objKeys nd ∨ q ∈ fs.map ManifestFile.projectID := by
  induction fs generalizing nd with
  | nil => simp [buildNewDataFrom]
  | cons f rest ih =>
      rw [buildNewDataFrom, ih, mem_objKeys_objSet]
      simp [List.mem_cons]
      tauto

theorem mem_objKeys_buildNewData (fs : List ManifestFile) (q : Nat) :
    q ∈ objKeys (buildNewData fs) ↔ q ∈ fs.map ManifestFile.projectID := by
  rw [buildNewData, mem_objKeys_buildNewDataFrom]
  simp [objKeys]

theorem nodup_objKeys_buildNewDataFrom (nd : List (Nat × NewEntry)) (fs : List ManifestFile)
    (h : (objKeys nd).Nodup) : (objKeys (buildNewDataFrom nd fs)).Nodup := by
  induction fs generalizing nd with
  | nil => exact h
  | cons f rest ih => exact ih _ (nodup_objKeys_objSet _ _ _ h)

theorem nodup_objKeys_buildNewData (fs : List ManifestFile) :
    (objKeys (buildNewData fs)).Nodup :=
  nodup_objKeys_buildNewDataFrom [] fs (by simp [objKeys])

/-! ### Spec-side helpers used to state the diff closed forms -/

/-- The `Juke.rm` path the diff loops use for a given pid, read off the
loaded cache state (the `none` case is unreachable for pids drawn from
`oldDataKeys`). -/
def rmPathOf (old : List (Nat × CacheEntry)) (pid : Nat) : String :=
  match objGet old pid with
  | some e => rmPath e
  | none => "dist/modcache/undefined"

/-- The working entry the diff loops store for a newly added or updated
pid: `{ fileID: newData[pid].fileID, required: newData[pid].required,
file: undefined }` (the `none` case is unreachable). -/
def ndEntry (nd : List (Nat × NewEntry)) (pid : Nat) : CacheEntry :=
  match objGet nd pid with
  | some ne => ⟨ne.fileID, ne.required, none⟩
  | none => ⟨0, false, none⟩

/-- pids present in the old state but dropped from the manifest. -/
def removedPids (old : List (Nat × CacheEntry)) (m : List ManifestFile) : List Nat :=
  (objKeys old).filter (fun p => !((objKeys (buildNewData m)).contains p))

/-- pids present in the manifest but absent from the old state. -/
def addedPids (old : List (Nat × CacheEntry)) (m : List ManifestFile) : List Nat :=
  (objKeys (buildNewData m)).filter (fun p => !((objKeys old).contains p))

/-- pids present in both with a changed `fileID`. -/
def changedPids (old : List (Nat × CacheEntry)) (m : List ManifestFile) : List Nat :=
  (objKeys old).filter (changedFilter (buildNewData m) old)

/-! ### Closed forms of the two diff loops -/

theorem loop1_removes (nd : List (Nat × NewEntry)) (pids : List Nat) (st : DiffSt)
    (hnd : pids.Nodup)
    (hpres : ∀ pid ∈ pids, (objGet st.working pid).isSome = true) :
    (loop1 nd pids st).dl = st.dl ∧
    (loop1 nd pids st).removedLog = st.removedLog ++ pids ∧
    (loop1 nd pids st).updatedLog = st.updatedLog ∧
    (loop1 nd pids st).events =
      st.events ++ pids.map (fun pid => Event.rm (rmPathOf st.working pid)) ∧
    (∀ q, objGet (loop1 nd pids st).working q =
      if q ∈ pids then none else objGet st.working q) := by
  induction pids generalizing st with
  | nil => simp [loop1]
  | cons pid rest ih =>
      rw [List.nodup_cons] at hnd
      obtain ⟨e, he⟩ : ∃ e, objGet st.working pid = some e := by
        have h1 := hpres pid (by simp)
        cases h2 : objGet st.working pid with
        | none => rw [h2] at h1; cases h1
        | some e => exact ⟨e, rfl⟩
      have hstep : step1 nd st pid =
          DiffSt.mk (objDel st.working pid) st.dl (st.events ++ [Event.rm (rmPath e)])
            (st.removedLog ++ [pid]) st.updatedLog := by
        simp [step1, he]
      have hget : ∀ q ∈ rest, objGet (objDel st.working pid) q = objGet st.working q := by
        intro q hq
        exact objGet_objDel_ne _ _ _ (fun hh => hnd.1 (hh ▸ hq))
      rw [loop1, hstep]
      obtain ⟨ih1, ih2, ih3, ih4, ih5⟩ :=
        ih (DiffSt.mk (objDel st.working pid) st.dl (st.events ++ [Event.rm (rmPath e)])
            (st.removedLog ++ [pid]) st.updatedLog)
          hnd.2
          (by
            intro q hq
            show (objGet (objDel st.working pid) q).isSome = true
            rw [hget q hq]
            exact hpres q (List.mem_cons_of_mem _ hq))
      refine ⟨ih1, ?_, ih3, ?_, ?_⟩
      · rw [ih2]
        simp
      · rw [ih4]
        simp only [List.map_cons, List.append_assoc, List.singleton_append]
        congr 2
        · rw [rmPathOf, he]
        · apply List.map_eq_map_iff.mpr
          intro q hq
          show Event.rm (rmPathOf (objDel st.working pid) q) = Event.rm (rmPathOf st.working q)
          rw [rmPathOf, rmPathOf, hget q hq]
      · intro q
        rw [ih5 q]
        by_cases hq : q ∈ rest
        · simp [hq, List.mem_cons]
        · by_cases hqp : q = pid
          · subst hqp
            simp [hq, objGet_objDel_self]
          · simp [hq, hqp, List.mem_cons, objGet_objDel_ne _ _ _ (fun hh => hqp hh)]

theorem loop1_adds (nd : List (Nat × NewEntry)) (pids : List Nat) (st : DiffSt)
    (hnd : pids.Nodup)
    (habs : ∀ pid ∈ pids, objGet st.working pid = none)
    (hin : ∀ pid ∈ pids, (objGet nd pid).isSome = true)
    (hdl : ∀ pid ∈ pids, pid ∉ st.dl) :
    (loop1 nd pids st).dl = st.dl ++ pids ∧
    (loop1 nd pids st).removedLog = st.removedLog ∧
    (loop1 nd pids st).updatedLog = st.updatedLog ∧
    (loop1 nd pids st).events = st.events ∧
    (∀ q, objGet (loop1 nd pids st).working q =
      if q ∈ pids then some (ndEntry nd q) else objGet st.working q) := by
  induction pids generalizing st with
  | nil => simp [loop1]
  | cons pid rest ih =>
      rw [List.nodup_cons] at hnd
      obtain ⟨ne, hne⟩ : ∃ ne, objGet nd pid = some ne := by
        have h1 := hin pid (by simp)
        cases h2 : objGet nd pid with
        | none => rw [h2] at h1; cases h1
        | some ne => exact ⟨ne, rfl⟩
      have hstep : step1 nd st pid =
          DiffSt.mk (objSet st.working pid ⟨ne.fileID, ne.required, none⟩)
            (st.dl ++ [pid]) st.events st.removedLog st.updatedLog := by
        simp [step1, habs pid (by simp), hne, hdl pid (by simp)]
      have hget : ∀ q ∈ rest,
          objGet (objSet st.working pid ⟨ne.fileID, ne.required, none⟩) q =
            objGet st.working q := by
        intro q hq
        exact objGet_objSet_ne _ _ _ _ (fun hh => hnd.1 (hh ▸ hq))
      rw [loop1, hstep]
      obtain ⟨ih1, ih2, ih3, ih4, ih5⟩ :=
        ih (DiffSt.mk (objSet st.working pid ⟨ne.fileID, ne.required, none⟩)
            (st.dl ++ [pid]) st.events st.removedLog st.updatedLog)
          hnd.2
          (by
            intro q hq
            show objGet (objSet st.working pid ⟨ne.fileID, ne.required, none⟩) q = none
            rw [hget q hq]
            exact habs q (List.mem_cons_of_mem _ hq))
          (fun q hq => hin q (List.mem_cons_of_mem _ hq))
          (by
            intro q hq
            show q ∉ st.dl ++ [pid]
            simp only [List.mem_append, List.mem_singleton]
            rintro (h1 | h1)
            · exact hdl q (List.mem_cons_of_mem _ hq) h1
            · exact hnd.1 (h1 ▸ hq))
      refine ⟨?_, ih2, ih3, ih4, ?_⟩
      · rw [ih1]
        simp
      · intro q
        rw [ih5 q]
        by_cases hq : q ∈ rest
        · simp [hq, List.mem_cons]
        · by_cases hqp : q = pid
          · subst hqp
            simp only [hq, List.mem_cons, or_false, if_pos rfl]
            show objGet (objSet st.working q ⟨ne.fileID, ne.required, none⟩) q =
              some (ndEntry nd q)
            rw [objGet_objSet_self, ndEntry, hne]
          · simp only [List.mem_cons, hq, hqp, or_self, if_neg, ite_false]
            show objGet (objSet st.working pid ⟨ne.fileID, ne.required, none⟩) q =
              objGet st.working q
            exact objGet_objSet_ne _ _ _ _ (fun hh => hqp hh)

theorem loop2_closed (nd : List (Nat × NewEntry)) (pids : List Nat) (st : DiffSt)
    (hnd : pids.Nodup)
    (hpres : ∀ pid ∈ pids, (objGet st.working pid).isSome = true)
    (hin : ∀ pid ∈ pids, (objGet nd pid).isSome = true)
    (hdl : ∀ pid ∈ pids, pid ∉ st.dl) :
    (loop2 nd pids st).dl = st.dl ++ pids ∧
    (loop2 nd pids st).removedLog = st.removedLog ∧
    (loop2 nd pids st).updatedLog = st.updatedLog ++ pids ∧
    (loop2 nd pids st).events =
      st.events ++ pids.map (fun pid => Event.rm (rmPathOf st.working pid)) ∧
    (∀ q, objGet (loop2 nd pids st).working q =
      if q ∈ pids then some (ndEntry nd q) else objGet st.working q) := by
  induction pids generalizing st with
  | nil => simp [loop2]
  | cons pid rest ih =>
      rw [List.nodup_cons] at hnd
      obtain ⟨e, he⟩ : ∃ e, objGet st.working pid = some e := by
        have h1 := hpres pid (by simp)
        cases h2 : objGet st.working pid with
        | none => rw [h2] at h1; cases h1
        | some e => exact ⟨e, rfl⟩
      obtain ⟨ne, hne⟩ : ∃ ne, objGet nd pid = some ne := by
        have h1 := hin pid (by simp)
        cases h2 : objGet nd pid with
        | none => rw [h2] at h1; cases h1
        | some ne => exact ⟨ne, rfl⟩
      have hstep : step2 nd st pid =
          DiffSt.mk (objSet st.working pid ⟨ne.fileID, ne.required, none⟩)
            (st.dl ++ [pid]) (st.events ++ [Event.rm (rmPath e)])
            st.removedLog (st.updatedLog ++ [pid]) := by
        simp [step2, he, hne, hdl pid (by simp)]
      have hget : ∀ q ∈ rest,
          objGet (objSet st.working pid ⟨ne.fileID, ne.required, none⟩) q =
            objGet st.working q := by
        intro q hq
        exact objGet_objSet_ne _ _ _ _ (fun hh => hnd.1 (hh ▸ hq))
      rw [loop2, hstep]
      obtain ⟨ih1, ih2, ih3, ih4, ih5⟩ :=
        ih (DiffSt.mk (objSet st.working pid ⟨ne.fileID, ne.required, none⟩)
            (st.dl ++ [pid]) (st.events ++ [Event.rm (rmPath e)])
            st.removedLog (st.updatedLog ++ [pid]))
          hnd.2
          (by
            intro q hq
            show (objGet (objSet st.working pid ⟨ne.fileID, ne.required, none⟩) q).isSome = true
            rw [hget q hq]
            exact hpres q (List.mem_cons_of_mem _ hq))
          (fun q hq => hin q (List.mem_cons_of_mem _ hq))
          (by
            intro q hq
            show q ∉ st.dl ++ [pid]
            simp only [List.mem_append, List.mem_singleton]
            rintro (h1 | h1)
            · exact hdl q (List.mem_cons_of_mem _ hq) h1
            · exact hnd.1 (h1 ▸ hq))
      refine ⟨?_, ih2, ?_, ?_, ?_⟩
      · rw [ih1]
        simp
      · rw [ih3]
        simp
      · rw [ih4]
        simp only [List.map_cons, List.append_assoc, List.singleton_append]
        congr 2
        · rw [rmPathOf, he]
        · apply List.map_eq_map_iff.mpr
          intro q hq
          show Event.rm (rmPathOf (objSet st.working pid ⟨ne.fileID, ne.required, none⟩) q) =
            Event.rm (rmPathOf st.working q)
          rw [rmPathOf, rmPathOf, hget q hq]
      · intro q
        rw [ih5 q]
        by_cases hq : q ∈ rest
        · simp [hq, List.mem_cons]
        · by_cases hqp : q = pid
          · subst hqp
            simp only [hq, List.mem_cons, or_false, if_pos rfl]
            show objGet (objSet st.working q ⟨ne.fileID, ne.required, none⟩) q =
              some (ndEntry nd q)
            rw [objGet_objSet_self, ndEntry, hne]
          · simp only [List.mem_cons, hq, hqp, or_self, if_neg, ite_false]
            show objGet (objSet st.working pid ⟨ne.fileID, ne.required, none⟩) q =
              objGet st.working q
            exact objGet_objSet_ne _ _ _ _ (fun hh => hqp hh)

theorem loop1_append (nd : List (Nat × NewEntry)) (a b : List Nat) (st : DiffSt) :
    loop1 nd (a ++ b) st = loop1 nd b (loop1 nd a st) := by
  induction a generalizing st with
  | nil => simp [loop1]
  | cons p rest ih => rw [List.cons_append, loop1, loop1, ih]

theorem changedFilter_eq_true_iff (nd : List (Nat × NewEntry))
    (w : List (Nat × CacheEntry)) (q : Nat) :
    changedFilter nd w q = true ↔
      ∃ ne e, objGet nd q = some ne ∧ objGet w q = some e ∧ e.fileID ≠ ne.fileID := by
  rw [changedFilter]
  cases h1 : objGet nd q with
  | none => simp
  | some ne =>
      cases h2 : objGet w q with
      | none => simp
      | some e => simp

theorem mem_removedPids (old : List (Nat × CacheEntry)) (m : List ManifestFile) (q : Nat) :
    q ∈ removedPids old m ↔ q ∈ objKeys old ∧ q ∉ objKeys (buildNewData m) := by
  rw [removedPids, List.mem_filter]
  simp [List.elem_iff]

theorem mem_addedPids (old : List (Nat × CacheEntry)) (m : List ManifestFile) (q : Nat) :
    q ∈ addedPids old m ↔ q ∈ objKeys (buildNewData m) ∧ q ∉ objKeys old := by
  rw [addedPids, List.mem_filter]
  simp [List.elem_iff]

theorem mem_changedPids (old : List (Nat × CacheEntry)) (m : List ManifestFile) (q : Nat) :
    q ∈ changedPids old m ↔
      ∃ ne e, objGet (buildNewData m) q = some ne ∧ objGet old q = some e ∧
        e.fileID ≠ ne.fileID := by
  rw [changedPids, List.mem_filter, changedFilter_eq_true_iff]
  constructor
  · rintro ⟨-, h⟩
    exact h
  · rintro ⟨ne, e, h1, h2, h3⟩
    exact ⟨mem_keys_of_objGet_some _ _ _ h2, ne, e, h1, h2, h3⟩

/-- Closed form of the whole cache-hit diff (lines 164-212), assuming
the loaded cache object has unique keys (true of every real JS object). -/
theorem diffCacheHit_closed (old : List (Nat × CacheEntry)) (m : List ManifestFile)
    (hnodup : (objKeys old).Nodup) :
    (diffCacheHit old m).removedLog = removedPids old m ∧
    (diffCacheHit old m).updatedLog = changedPids old m ∧
    (diffCacheHit old m).dl = addedPids old m ++ changedPids old m ∧
    (diffCacheHit old m).events =
      (removedPids old m ++ changedPids old m).map
        (fun pid => Event.rm (rmPathOf old pid)) ∧
    (∀ q, objGet (diffCacheHit old m).working q =
      if q ∈ removedPids old m then none
      else if q ∈ addedPids old m ++ changedPids old m then
        some (ndEntry (buildNewData m) q)
      else objGet old q) := by
  have hndK : (objKeys (buildNewData m)).Nodup := nodup_objKeys_buildNewData m
  -- loop 1, removal part
  obtain ⟨r1, r2, r3, r4, r5⟩ :=
    loop1_removes (buildNewData m) (removedPids old m) (initSt old)
      (hnodup.filter _)
      (fun pid hp =>
        objGet_isSome_of_mem_keys old pid ((mem_removedPids old m pid).mp hp).1)
  -- loop 1, addition part
  obtain ⟨a1, a2, a3, a4, a5⟩ :=
    loop1_adds (buildNewData m) (addedPids old m)
      (loop1 (buildNewData m) (removedPids old m) (initSt old))
      (hndK.filter _)
      (by
        intro pid hp
        rw [r5 pid]
        have hnold : pid ∉ objKeys old := ((mem_addedPids old m pid).mp hp).2
        have : pid ∉ removedPids old m := fun hh =>
          hnold ((mem_removedPids old m pid).mp hh).1
        simp only [this, if_false, ite_false]
        exact (objGet_eq_none_iff old pid).mpr hnold)
      (fun pid hp =>
        objGet_isSome_of_mem_keys _ pid ((mem_addedPids old m pid).mp hp).1)
      (by
        intro pid hp
        rw [r1]
        simp [initSt])
  set st1 := loop1 (buildNewData m) (addedPids old m)
      (loop1 (buildNewData m) (removedPids old m) (initSt old)) with hst1
  have hst1dl : st1.dl = addedPids old m := by
    rw [a1, r1]
    simp [initSt]
  have hst1rm : st1.removedLog = removedPids old m := by
    rw [a2, r2]
    simp [initSt]
  have hst1up : st1.updatedLog = [] := by
    rw [a3, r3]
    simp [initSt]
  have hst1ev : st1.events =
      (removedPids old m).map (fun pid => Event.rm (rmPathOf old pid)) := by
    rw [a4, r4]
    simp [initSt]
  have hW1 : ∀ q, objGet st1.working q =
      if q ∈ addedPids old m then some (ndEntry (buildNewData m) q)
      else if q ∈ removedPids old m then none
      else objGet old q := by
    intro q
    rw [a5 q, r5 q]
    simp [initSt]
  -- the key fact: on old keys, the loop-2 filter over the post-loop-1
  -- working object agrees with the same filter over the original object
  have hWold : ∀ q, q ∈ objKeys old → q ∉ removedPids old m →
      objGet st1.working q = objGet old q := by
    intro q hq hqrm
    rw [hW1 q]
    have : q ∉ addedPids old m := fun hh => ((mem_addedPids old m q).mp hh).2 hq
    simp [this, hqrm]
  have hl2 : (objKeys old).filter (changedFilter (buildNewData m) st1.working) =
      changedPids old m := by
    rw [changedPids]
    apply List.filter_congr
    intro q hq
    by_cases hrm : q ∈ removedPids old m
    · have hnd0 : objGet (buildNewData m) q = none :=
        (objGet_eq_none_iff _ q).mpr ((mem_removedPids old m q).mp hrm).2
      rw [changedFilter, changedFilter, hnd0]
    · rw [changedFilter, changedFilter, hWold q hq hrm]
  -- loop 2
  have hchpres : ∀ pid ∈ changedPids old m, (objGet st1.working pid).isSome = true := by
    intro pid hp
    obtain ⟨ne, e, h1, h2, -⟩ := (mem_changedPids old m pid).mp hp
    have hqk : pid ∈ objKeys old := mem_keys_of_objGet_some _ _ _ h2
    have hqrm : pid ∉ removedPids old m := fun hh =>
      ((mem_removedPids old m pid).mp hh).2 (mem_keys_of_objGet_some _ _ _ h1)
    rw [hWold pid hqk hqrm, h2]
    rfl
  obtain ⟨b1, b2, b3, b4, b5⟩ :=
    loop2_closed (buildNewData m) (changedPids old m) st1
      (hnodup.filter _)
      hchpres
      (fun pid hp => by
        obtain ⟨ne, e, h1, -, -⟩ := (mem_changedPids old m pid).mp hp
        rw [h1]
        rfl)
      (by
        intro pid hp
        rw [hst1dl]
        intro hh
        obtain ⟨ne, e, -, h2, -⟩ := (mem_changedPids old m pid).mp hp
        exact ((mem_addedPids old m pid).mp hh).2 (mem_keys_of_objGet_some _ _ _ h2))
  have hrun : diffCacheHit old m = loop2 (buildNewData m) (changedPids old m) st1 := by
    have e1 : (objKeys old).filter (fun p => !((objKeys (buildNewData m)).contains p)) =
        removedPids old m := rfl
    have e2 : (objKeys (buildNewData m)).filter (fun p => !((objKeys old).contains p)) =
        addedPids old m := rfl
    simp only [diffCacheHit, e1, e2, loop1_append]
    rw [← hst1, hl2]
  rw [hrun]
  refine ⟨?_, ?_, ?_, ?_, ?_⟩
  · rw [b2, hst1rm]
  · rw [b3, hst1up]
    simp
  · rw [b1, hst1dl]
  · rw [b4, hst1ev, List.map_append]
    congr 1
    apply List.map_eq_map_iff.mpr
    intro q hq
    obtain ⟨ne, e, h1, h2, -⟩ := (mem_changedPids old m q).mp hq
    have hqk : q ∈ objKeys old := mem_keys_of_objGet_some _ _ _ h2
    have hqrm : q ∉ removedPids old m := fun hh =>
      ((mem_removedPids old m q).mp hh).2 (mem_keys_of_objGet_some _ _ _ h1)
    rw [rmPathOf, rmPathOf, hWold q hqk hqrm]
  · intro q
    rw [b5 q]
    by_cases hch : q ∈ changedPids old m
    · obtain ⟨ne, e, h1, h2, -⟩ := (mem_changedPids old m q).mp hch
      have hqrm : q ∉ removedPids old m := fun hh =>
        ((mem_removedPids old m q).mp hh).2 (mem_keys_of_objGet_some _ _ _ h1)
      simp [hch, hqrm]
    · rw [hW1 q]
      by_cases hadd : q ∈ addedPids old m
      · have hqrm : q ∉ removedPids old m := fun hh =>
          ((mem_addedPids old m q).mp hadd).2 ((mem_removedPids old m q).mp hh).1
        simp [hch, hadd, hqrm]
      · by_cases hrm : q ∈ removedPids old m
        · simp [hch, hadd, hrm]
        · simp [hch, hadd, hrm]

/-! ### Closed form of the no-cache branch (lines 213-221) -/

theorem noCacheFrom_closed (m : List ManifestFile) : ∀ st : DiffSt,
    (noCacheFrom st m).dl = st.dl ++ m.map ManifestFile.projectID ∧
    (noCacheFrom st m).events = st.events ∧
    (noCacheFrom st m).removedLog = st.removedLog ∧
    (noCacheFrom st m).updatedLog = st.updatedLog := by
  induction m with
  | nil => intro st; simp [noCacheFrom]
  | cons f rest ih =>
      intro st
      rw [noCacheFrom]
      obtain ⟨i1, i2, i3, i4⟩ := ih
        (DiffSt.mk (objSet st.working f.projectID ⟨f.fileID, f.required, none⟩)
          (st.dl ++ [f.projectID]) st.events st.removedLog st.updatedLog)
      refine ⟨?_, i2, i3, i4⟩
      rw [i1]
      simp

theorem noCacheFrom_entries (m : List ManifestFile) : ∀ st : DiffSt,
    (∀ q e, objGet st.working q = some e → e.file = none ∧ q ∈ st.dl) →
    ∀ q e, objGet (noCacheFrom st m).working q = some e →
      e.file = none ∧ q ∈ (noCacheFrom st m).dl := by
  induction m with
  | nil => intro st h; simpa [noCacheFrom] using h
  | cons f rest ih =>
      intro st h q e
      rw [noCacheFrom]
      apply ih
      intro q' e' hq'
      by_cases hqp : q' = f.projectID
      · rw [hqp, objGet_objSet_self] at hq'
        cases hq'
        exact ⟨rfl, by rw [hqp]; simp⟩
      · rw [objGet_objSet_ne _ _ _ _ hqp] at hq'
        obtain ⟨h1, h2⟩ := h q' e' hq'
        exact ⟨h1, by simp [h2]⟩

/-! ### Download-loop lemmas (lines 223-230) -/

theorem downloadLoop_shift (resolve : Nat → Nat → Except String String) (ids : List Nat) :
    ∀ dk ev, (downloadLoop resolve ids dk ev).1 = ev ++ (downloadLoop resolve ids dk []).1 ∧
      (downloadLoop resolve ids dk ev).2 = (downloadLoop resolve ids dk []).2 := by
  induction ids with
  | nil => intro dk ev; simp [downloadLoop]
  | cons modID rest ih =>
      intro dk ev
      cases h1 : objGet dk modID with
      | none => simp [downloadLoop, h1]
      | some e =>
          cases h2 : resolve modID e.fileID with
          | error msg => simp [downloadLoop, h1, h2]
          | ok fn =>
              simp only [downloadLoop, h1, h2]
              constructor
              · rw [(ih (objSet dk modID ⟨e.fileID, e.required, some fn⟩)
                      (ev ++ [Event.download modID e.fileID fn])).1,
                    (ih (objSet dk modID ⟨e.fileID, e.required, some fn⟩)
                      ([] ++ [Event.download modID e.fileID fn])).1]
                simp
              · rw [(ih (objSet dk modID ⟨e.fileID, e.required, some fn⟩)
                      (ev ++ [Event.download modID e.fileID fn])).2,
                    (ih (objSet dk modID ⟨e.fileID, e.required, some fn⟩)
                      ([] ++ [Event.download modID e.fileID fn])).2]

theorem downloadLoop_events_kind (resolve : Nat → Nat → Except String String)
    (ids : List Nat) : ∀ dk ev,
    ∀ e ∈ (downloadLoop resolve ids dk ev).1, e ∈ ev ∨ e.isDownload = true := by
  induction ids with
  | nil => intro dk ev e he; exact Or.inl (by simpa [downloadLoop] using he)
  | cons modID rest ih =>
      intro dk ev e he
      cases h1 : objGet dk modID with
      | none =>
          simp only [downloadLoop, h1] at he
          exact Or.inl he
      | some en =>
          cases h2 : resolve modID en.fileID with
          | error msg =>
              simp only [downloadLoop, h1, h2] at he
              exact Or.inl he
          | ok fn =>
              simp only [downloadLoop, h1, h2] at he
              rcases ih _ _ e he with h3 | h3
              · rcases List.mem_append.mp h3 with h4 | h4
                · exact Or.inl h4
                · rw [List.mem_singleton] at h4
                  subst h4
                  exact Or.inr rfl
              · exact Or.inr h3

theorem downloadLoop_error_shape (resolve : Nat → Nat → Except String String)
    (ids : List Nat) : ∀ dk ev err,
    (downloadLoop resolve ids dk ev).2 = Except.error err →
    ∃ pid msg, err = RunErr.downloadFailed pid msg := by
  induction ids with
  | nil => intro dk ev err h; simp [downloadLoop] at h
  | cons modID rest ih =>
      intro dk ev err h
      cases h1 : objGet dk modID with
      | none =>
          simp only [downloadLoop, h1] at h
          cases h
          exact ⟨modID, "TypeError", rfl⟩
      | some en =>
          cases h2 : resolve modID en.fileID with
          | error msg =>
              simp only [downloadLoop, h1, h2] at h
              cases h
              exact ⟨modID, msg, rfl⟩
          | ok fn =>
              simp only [downloadLoop, h1, h2] at h
              exact ih _ _ _ h

theorem downloadLoop_frame (resolve : Nat → Nat → Except String String)
    (ids : List Nat) : ∀ dk ev final,
    (downloadLoop resolve ids dk ev).2 = Except.ok final →
    ∀ q, q ∉ ids → objGet final q = objGet dk q := by
  induction ids with
  | nil =>
      intro dk ev final h q _
      simp [downloadLoop] at h
      rw [h]
  | cons modID rest ih =>
      intro dk ev final h q hq
      rw [List.mem_cons] at hq
      push_neg at hq
      cases h1 : objGet dk modID with
      | none => simp only [downloadLoop, h1] at h; cases h
      | some en =>
          cases h2 : resolve modID en.fileID with
          | error msg => simp only [downloadLoop, h1, h2] at h; cases h
          | ok fn =>
              simp only [downloadLoop, h1, h2] at h
              rw [ih _ _ _ h q hq.2]
              exact objGet_objSet_ne _ _ _ _ hq.1

/-! ### Cache-directory (filesystem) lemmas -/

theorem applyEvents_append (a b : List Event) : ∀ disk,
    applyEvents disk (a ++ b) = applyEvents (applyEvents disk a) b := by
  induction a with
  | nil => intro disk; simp [applyEvents]
  | cons e rest ih => intro disk; rw [List.cons_append, applyEvents, applyEvents, ih]

theorem mem_applyEvents_of_no_rm (evs : List Event) : ∀ disk p,
    p ∈ disk → Event.rm p ∉ evs → p ∈ applyEvents disk evs := by
  induction evs with
  | nil => intro disk p hp _; exact hp
  | cons e rest ih =>
      intro disk p hp hrm
      rw [List.mem_cons] at hrm
      push_neg at hrm
      rw [applyEvents]
      apply ih _ _ _ hrm.2
      cases e with
      | rm p' =>
          rw [applyEvent, List.mem_filter]
          refine ⟨hp, ?_⟩
          have : p ≠ p' := fun hh => hrm.1 (by rw [hh])
          simpa using this
      | download a b fn =>
          rw [applyEvent]
          split
          · exact hp
          · exact List.mem_append_left _ hp
      | mkdir p' => exact hp
      | writeFile p' => exact hp
      | rename s d => exact hp

theorem mem_applyEvents_rms (paths : List String) : ∀ disk p,
    p ∈ applyEvents disk (paths.map Event.rm) ↔ p ∈ disk ∧ p ∉ paths := by
  induction paths with
  | nil => intro disk p; simp [applyEvents]
  | cons pr rest ih =>
      intro disk p
      rw [List.map_cons, applyEvents, applyEvent, ih, List.mem_filter, List.mem_cons]
      constructor
      · rintro ⟨⟨h1, h2⟩, h3⟩
        have : p ≠ pr := by simpa using h2
        exact ⟨h1, by tauto⟩
      · rintro ⟨h1, h2⟩
        push_neg at h2
        exact ⟨⟨h1, by simpa using h2.1⟩, h2.2⟩

/-! ### Event-kind lemmas: the diff loops emit only `Juke.rm` calls, the
download loop emits only `DownloadCF` calls -/

theorem loop1_events_sub (nd : List (Nat × NewEntry)) (pids : List Nat) : ∀ st : DiffSt,
    ∀ e ∈ (loop1 nd pids st).events, e ∈ st.events ∨ e.isRm = true := by
  induction pids with
  | nil => intro st e he; exact Or.inl he
  | cons pid rest ih =>
      intro st e he
      rw [loop1] at he
      rcases ih (step1 nd st pid) e he with h1 | h1
      · cases hg : objGet st.working pid with
        | some en =>
            simp only [step1, hg] at h1
            rcases List.mem_append.mp h1 with h2 | h2
            · exact Or.inl h2
            · rw [List.mem_singleton] at h2
              subst h2
              exact Or.inr rfl
        | none =>
            cases hg2 : objGet nd pid with
            | some ne2 =>
                by_cases hmem : pid ∈ st.dl
                · simp only [step1, hg, hg2, if_pos hmem] at h1
                  exact Or.inl h1
                · simp only [step1, hg, hg2, if_neg hmem] at h1
                  exact Or.inl h1
            | none =>
                simp only [step1, hg, hg2] at h1
                exact Or.inl h1
      · exact Or.inr h1

theorem loop2_events_sub (nd : List (Nat × NewEntry)) (pids : List Nat) : ∀ st : DiffSt,
    ∀ e ∈ (loop2 nd pids st).events, e ∈ st.events ∨ e.isRm = true := by
  induction pids with
  | nil => intro st e he; exact Or.inl he
  | cons pid rest ih =>
      intro st e he
      rw [loop2] at he
      rcases ih (step2 nd st pid) e he with h1 | h1
      · cases hg : objGet st.working pid with
        | some en =>
            cases hg2 : objGet nd pid with
            | some ne2 =>
                simp only [step2, hg, hg2] at h1
                rcases List.mem_append.mp h1 with h2 | h2
                · exact Or.inl h2
                · rw [List.mem_singleton] at h2
                  subst h2
                  exact Or.inr rfl
            | none =>
                simp only [step2, hg, hg2] at h1
                exact Or.inl h1
        | none =>
            simp only [step2, hg] at h1
            exact Or.inl h1
      · exact Or.inr h1

theorem diffPhase_events_rm (cache : Option (List (Nat × CacheEntry)))
    (m : List ManifestFile) :
    ∀ e ∈ (diffPhase cache m).events, e.isRm = true := by
  cases cache with
  | none =>
      intro e he
      rw [diffPhase, (noCacheFrom_closed m (initSt [])).2.1] at he
      cases he
  | some old =>
      intro e he
      rw [diffPhase] at he
      simp only [diffCacheHit] at he
      rcases loop2_events_sub _ _ _ e he with h1 | h1
      · rcases loop1_events_sub _ _ _ e h1 with h2 | h2
        · cases h2
        · exact h2
      · exact h1

theorem downloadLoop_new_events_download (resolve : Nat → Nat → Except String String)
    (ids : List Nat) : ∀ dk,
    ∀ e ∈ (downloadLoop resolve ids dk []).1, e.isDownload = true := by
  intro dk e he
  rcases downloadLoop_events_kind resolve ids dk [] e he with h | h
  · cases h
  · exact h

/-- Position lemma: in a trace split as `xs ++ ys` with no download in
`xs` and no rm in `ys`, every rm index precedes every download index. -/
theorem rm_before_download_in (xs ys : List Event)
    (hxs : ∀ e ∈ xs, e.isDownload = false)
    (hys : ∀ e ∈ ys, e.isRm = false)
    (i j : Nat) (a b : Event)
    (hi : (xs ++ ys)[i]? = some a) (ha : a.isDownload = true)
    (hj : (xs ++ ys)[j]? = some b) (hb : b.isRm = true) : j < i := by
  have hi2 : xs.length ≤ i := by
    by_contra hlt
    push_neg at hlt
    rw [List.getElem?_append_left hlt] at hi
    have := hxs a (List.getElem?_mem hi)
    rw [ha] at this
    cases this
  have hj2 : j < xs.length := by
    by_contra hge
    push_neg at hge
    rw [List.getElem?_append_right hge] at hj
    have := hys b (List.getElem?_mem hj)
    rw [hb] at this
    cases this
  omega

/-! ### Decomposition of the full-run trace -/

theorem runAfterLoad_split (resolve : Nat → Nat → Except String String)
    (cache : Option (List (Nat × CacheEntry))) (m : List ManifestFile) :
    ∃ ys, (runAfterLoad resolve cache m).1 =
      (Event.mkdir "dist/modcache" :: (diffPhase cache m).events) ++ ys ∧
      (∀ e ∈ ys, e.isDownload = true ∨ e = Event.writeFile "dist/cache.json") ∧
      (∀ err, (runAfterLoad resolve cache m).2 = Except.error err →
        Event.writeFile "dist/cache.json" ∉ ys) := by
  rcases hr : downloadLoop resolve (diffPhase cache m).dl (diffPhase cache m).working
      (Event.mkdir "dist/modcache" :: (diffPhase cache m).events) with ⟨ev, res⟩
  have hev : ev = (Event.mkdir "dist/modcache" :: (diffPhase cache m).events) ++
      (downloadLoop resolve (diffPhase cache m).dl (diffPhase cache m).working []).1 := by
    have h := (downloadLoop_shift resolve (diffPhase cache m).dl (diffPhase cache m).working
      (Event.mkdir "dist/modcache" :: (diffPhase cache m).events)).1
    rw [hr] at h
    exact h
  cases res with
  | ok final =>
      refine ⟨(downloadLoop resolve (diffPhase cache m).dl (diffPhase cache m).working []).1 ++
        saveCacheEvents, ?_, ?_, ?_⟩
      · simp only [runAfterLoad, hr, hev]
        simp [List.append_assoc]
      · intro e he
        rcases List.mem_append.mp he with h1 | h1
        · exact Or.inl (downloadLoop_new_events_download resolve _ _ e h1)
        · rw [saveCacheEvents, List.mem_singleton] at h1
          exact Or.inr h1
      · intro err herr
        simp only [runAfterLoad, hr] at herr
        cases herr
  | error err0 =>
      refine ⟨(downloadLoop resolve (diffPhase cache m).dl (diffPhase cache m).working []).1,
        ?_, ?_, ?_⟩
      · simp only [runAfterLoad, hr, hev]
      · intro e he
        exact Or.inl (downloadLoop_new_events_download resolve _ _ e he)
      · intro err _ hmem
        have := downloadLoop_new_events_download resolve _ _ _ hmem
        cases this

theorem runFull_split (resolve : Nat → Nat → Except String String)
    (manifestRaw : Option (List ManifestFile))
    (cacheRaw : Option (Option (List (Nat × CacheEntry)))) :
    ∃ xs ys, (runFull resolve manifestRaw cacheRaw).1 = xs ++ ys ∧
      (∀ e ∈ xs, e.isRm = true ∨ e = Event.mkdir "dist/modcache") ∧
      (∀ e ∈ ys, e.isDownload = true ∨ e = Event.writeFile "dist/cache.json") ∧
      (∀ err, (runFull resolve manifestRaw cacheRaw).2 = Except.error err →
        Event.writeFile "dist/cache.json" ∉ ys) := by
  cases manifestRaw with
  | none => exact ⟨[], [], rfl, by simp, by simp, by simp [runFull]⟩
  | some m =>
      cases cacheRaw with
      | none =>
          obtain ⟨ys, h1, h2, h3⟩ := runAfterLoad_split resolve none m
          refine ⟨Event.mkdir "dist/modcache" :: (diffPhase none m).events, ys, h1, ?_, h2, h3⟩
          intro e he
          rcases List.mem_cons.mp he with h4 | h4
          · exact Or.inr h4
          · exact Or.inl (diffPhase_events_rm none m e h4)
      | some oldOpt =>
          cases oldOpt with
          | none =>
              refine ⟨[Event.mkdir "dist/modcache"], [], by simp [runFull], ?_, by simp, ?_⟩
              · intro e he
                rw [List.mem_singleton] at he
                exact Or.inr he
              · simp
          | some old =>
              obtain ⟨ys, h1, h2, h3⟩ := runAfterLoad_split resolve (some old) m
              refine ⟨Event.mkdir "dist/modcache" :: (diffPhase (some old) m).events, ys,
                h1, ?_, h2, h3⟩
              intro e he
              rcases List.mem_cons.mp he with h4 | h4
              · exact Or.inr h4
              · exact Or.inl (diffPhase_events_rm (some old) m e h4)

/-- C3: in the trace of any run, every `Juke.rm` issued by the diff loops
precedes every `DownloadCF` call of the download loop: if position `i`
holds a download event and position `j` holds an rm event, then `j < i`. -/
theorem c3_rm_before_download (resolve : Nat → Nat → Except String String)
    (manifestRaw : Option (List ManifestFile))
    (cacheRaw : Option (Option (List (Nat × CacheEntry))))
    (i j : Nat) (a b : Event)
    (hi : (runFull resolve manifestRaw cacheRaw).1[i]? = some a)
    (ha : a.isDownload = true)
    (hj : (runFull resolve manifestRaw cacheRaw).1[j]? = some b)
    (hb : b.isRm = true) : j < i := by
  obtain ⟨xs, ys, h1, h2, h3, -⟩ := runFull_split resolve manifestRaw cacheRaw
  rw [h1] at hi hj
  refine rm_before_download_in xs ys ?_ ?_ i j a b hi ha hj hb
  · intro e he
    rcases h2 e he with h4 | h4
    · cases e <;> simp_all [Event.isRm, Event.isDownload]
    · subst h4
      rfl
  · intro e he
    rcases h3 e he with h4 | h4
    · cases e <;> simp_all [Event.isRm, Event.isDownload]
    · subst h4
      rfl

/-- C3 witness: a version change produces an rm at position 1 and a
download at position 2. -/
theorem c3_rm_before_download_witness : (1 : Nat) < 2 :=
  c3_rm_before_download (fun pid _ => Except.ok ("f" ++ Nat.repr pid ++ ".jar"))
    (some [⟨1, 11, true⟩]) (some (some [(1, ⟨10, true, some "f1.jar"⟩)]))
    2 1 (Event.download 1 11 "f1.jar") (Event.rm "dist/modcache/f1.jar")
    (by decide) rfl (by decide) rfl

/-- C6: with `dist/cache.json` absent, every projectID of the manifest is
scheduled for download (`mIdToDownload` is exactly the manifest's
projectID list) and the run performs no removal at all. -/
theorem c6_first_run_fetches_all (resolve : Nat → Nat → Except String String)
    (m : List ManifestFile) :
    (diffPhase none m).dl = m.map ManifestFile.projectID ∧
    (runFull resolve (some m) none).1.countP Event.isRm = 0 := by
  have hev : (diffPhase none m).events = [] := (noCacheFrom_closed m (initSt [])).2.1
  constructor
  · rw [diffPhase, (noCacheFrom_closed m (initSt [])).1]
    rfl
  · rw [List.countP_eq_zero]
    intro e he
    obtain ⟨ys, h1, h2, -⟩ := runAfterLoad_split resolve none m
    have he2 : e ∈ (runAfterLoad resolve none m).1 := he
    rw [h1, hev] at he2
    rcases List.mem_cons.mp (by simpa using he2) with h4 | h4
    · subst h4
      simp [Event.isRm]
    · rcases h2 e h4 with h5 | h5
      · cases e <;> simp_all [Event.isRm, Event.isDownload]
      · subst h5
        simp [Event.isRm]

instance {e a : Type} [DecidableEq e] [DecidableEq a] : DecidableEq (Except e a) := fun x y =>
  match x, y with
  | Except.ok v, Except.ok w =>
      if h : v = w then isTrue (by rw [h]) else isFalse (by intro hh; cases hh; exact h rfl)
  | Except.error v, Except.error w =>
      if h : v = w then isTrue (by rw [h]) else isFalse (by intro hh; cases hh; exact h rfl)
  | Except.ok _, Except.error _ => isFalse (by intro hh; cases hh)
  | Except.error _, Except.ok _ => isFalse (by intro hh; cases hh)

/-! ### C1: fetch-failure behavior -/

/-- A resolver that fails exactly for artifact 2 (spec §8, scenario 5). -/
def c1Resolve : Nat → Nat → Except String String :=
  fun pid _ => if pid = 2 then Except.error "network" else
    Except.ok ("f" ++ Nat.repr pid ++ ".jar")

def c1Manifest : List ManifestFile := [⟨1, 10, true⟩, ⟨2, 20, true⟩, ⟨3, 30, true⟩]

/-- C1 counterexample: with artifacts 1, 2, 3 scheduled and artifact 2's
fetch failing, the run does NOT continue: artifact 3 is never downloaded
(exactly one download event occurs, for artifact 1), `dist/cache.json` is
never written, and the whole run is the bare rejection for artifact 2 —
so no CacheState containing entries for 1 and 3 is persisted at all. -/
theorem c1_counterexample :
    (runFull c1Resolve (some c1Manifest) none).2 =
      Except.error (RunErr.downloadFailed 2 "network") ∧
    (runFull c1Resolve (some c1Manifest) none).1.countP Event.isDownload = 1 ∧
    (runFull c1Resolve (some c1Manifest) none).1.countP
      (fun e => e == Event.writeFile "dist/cache.json") = 0 := by
  decide

/-- C1 amended: a failure of a single artifact's fetch aborts the run at
that artifact: the download loop returns immediately with an error naming
the failing artifact, emitting no further events and processing none of
the remaining artifacts, and on any failed run `dist/cache.json` is not
written (the previously persisted state, if any, is left as it was). -/
theorem c1_amended_fetch_failure_aborts :
    (∀ (resolve : Nat → Nat → Except String String) dk ev (b : Nat) post e msg,
      objGet dk b = some e → resolve b e.fileID = Except.error msg →
      downloadLoop resolve (b :: post) dk ev =
        (ev, Except.error (RunErr.downloadFailed b msg))) ∧
    (∀ (resolve : Nat → Nat → Except String String) manifestRaw cacheRaw err,
      (runFull resolve manifestRaw cacheRaw).2 = Except.error err →
      Event.writeFile "dist/cache.json" ∉ (runFull resolve manifestRaw cacheRaw).1) := by
  constructor
  · intro resolve dk ev b post e msg hb hfail
    simp [downloadLoop, hb, hfail]
  · intro resolve manifestRaw cacheRaw err herr hmem
    obtain ⟨xs, ys, h1, h2, h3, h4⟩ := runFull_split resolve manifestRaw cacheRaw
    rw [h1] at hmem
    rcases List.mem_append.mp hmem with h5 | h5
    · rcases h2 _ h5 with h6 | h6
      · cases h6
      · cases h6
    · exact h4 err herr h5

/-- C1 amended, witness: the failing loop for artifact 2 with artifact 3
still pending returns at once with the error, leaving the trace empty. -/
theorem c1_amended_fetch_failure_aborts_witness :
    downloadLoop c1Resolve [2, 3]
      [(2, ⟨20, true, none⟩), (3, ⟨30, true, none⟩)] [] =
      ([], Except.error (RunErr.downloadFailed 2 "network")) :=
  c1_amended_fetch_failure_aborts.1 c1Resolve
    [(2, ⟨20, true, none⟩), (3, ⟨30, true, none⟩)] [] 2 [3]
    ⟨20, true, none⟩ "network" (by decide) (by decide)

/-! ### C4: persistence is not atomic, and a corrupt record is not
treated as absent -/

def c4Resolve : Nat → Nat → Except String String :=
  fun _ _ => Except.ok "a.jar"

/-- C4 counterexample: the persistence step is a single direct
`writeFileSync` of `dist/cache.json` — there is no write to a temporary
name and no rename anywhere in any trace of this run — and a corrupt
(present but unparsable) `dist/cache.json` makes the run abort with a
parse error, while an absent one lets the same run succeed: corrupt and
absent records are NOT treated identically. -/
theorem c4_counterexample :
    saveCacheEvents = [Event.writeFile "dist/cache.json"] ∧
    (runFull c4Resolve (some [⟨1, 10, true⟩]) (some none)).1.countP Event.isRename = 0 ∧
    (runFull c4Resolve (some [⟨1, 10, true⟩]) (some none)).2 =
      Except.error RunErr.cacheSyntax ∧
    (runFull c4Resolve (some [⟨1, 10, true⟩]) none).2 =
      Except.ok [(1, ⟨10, true, some "a.jar"⟩)] := by
  decide

/-- C4 amended: `dist/cache.json` is written in place by a single
`writeFileSync` — no run ever performs a rename, so there is no
temporary-file-plus-rename step — and a corrupt persisted record is
run-fatal: the run stops right after `mkdirSync` with a parse error
instead of degrading to a full refetch. -/
theorem c4_amended_save_not_atomic :
    (∀ (resolve : Nat → Nat → Except String String) manifestRaw cacheRaw,
      (runFull resolve manifestRaw cacheRaw).1.countP Event.isRename = 0) ∧
    (∀ (resolve : Nat → Nat → Except String String) m,
      runFull resolve (some m) (some none) =
        ([Event.mkdir "dist/modcache"], Except.error RunErr.cacheSyntax)) := by
  constructor
  · intro resolve manifestRaw cacheRaw
    rw [List.countP_eq_zero]
    intro e he
    obtain ⟨xs, ys, h1, h2, h3, -⟩ := runFull_split resolve manifestRaw cacheRaw
    rw [h1] at he
    rcases List.mem_append.mp he with h5 | h5
    · rcases h2 _ h5 with h6 | h6
      · cases e <;> simp_all [Event.isRm, Event.isRename]
      · subst h6
        simp [Event.isRename]
    · rcases h3 _ h5 with h6 | h6
      · cases e <;> simp_all [Event.isDownload, Event.isRename]
      · subst h6
        simp [Event.isRename]
  · intro resolve m
    rfl

/-! ### C5: manifest validation -/

def c5Resolve : Nat → Nat → Except String String :=
  fun _ _ => Except.ok "m.jar"

/-- A manifest with a duplicate artifactId (projectID 1 twice). -/
def c5Manifest : List ManifestFile := [⟨1, 10, true⟩, ⟨1, 11, true⟩]

/-- C5 counterexample: a manifest with a duplicate artifactId is NOT
rejected: the run parses it, downloads (twice) and completes
successfully with the last occurrence winning — no `ValidationError`
exists on this path. -/
theorem c5_counterexample :
    (runFull c5Resolve (some c5Manifest) none).2 =
      Except.ok [(1, ⟨11, true, some "m.jar"⟩)] := by
  decide

/-- C5 amended: the only manifest-parsing failure is a JSON syntax error
(`JSON.parse` throwing at line 157), and that failure does abort the run
before any filesystem or network action (the trace is empty); once the
manifest text parses, no validation is performed — duplicate artifactIds
or any other content never produce a manifest error. -/
theorem c5_amended_no_validation :
    (∀ (resolve : Nat → Nat → Except String String) cacheRaw,
      runFull resolve none cacheRaw = ([], Except.error RunErr.manifestSyntax)) ∧
    (∀ (resolve : Nat → Nat → Except String String) m cacheRaw,
      (runFull resolve (some m) cacheRaw).2 ≠ Except.error RunErr.manifestSyntax) := by
  constructor
  · intro resolve cacheRaw
    rfl
  · intro resolve m cacheRaw
    cases cacheRaw with
    | none =>
        intro h
        rw [runFull, runAfterLoad] at h
        rcases hr : downloadLoop resolve (diffPhase none m).dl (diffPhase none m).working
            (Event.mkdir "dist/modcache" :: (diffPhase none m).events) with ⟨ev, res⟩
        rw [hr] at h
        cases res with
        | ok final => cases h
        | error err =>
            simp only [] at h
            cases h
            obtain ⟨pid, msg, hshape⟩ := downloadLoop_error_shape resolve _ _ _ _
              (by rw [hr])
            cases hshape
    | some oldOpt =>
        cases oldOpt with
        | none =>
            intro h
            cases h
        | some old =>
            intro h
            rw [runFull, runAfterLoad] at h
            rcases hr : downloadLoop resolve (diffPhase (some old) m).dl
                (diffPhase (some old) m).working
                (Event.mkdir "dist/modcache" :: (diffPhase (some old) m).events) with ⟨ev, res⟩
            rw [hr] at h
            cases res with
            | ok final => cases h
            | error err =>
                simp only [] at h
                cases h
                obtain ⟨pid, msg, hshape⟩ := downloadLoop_error_shape resolve _ _ _ _
                  (by rw [hr])
                cases hshape

/-! ### C2: the diff partitions artifactIds -/

/-- C2: with a parsed cache present, the diff treats every artifactId in
exactly one of four ways: present in the old state but dropped from the
manifest → removal only (logged removed, old file rm'ed, record deleted,
not scheduled); new in the manifest → fetch only; present in both with a
changed fileID → removal of the old file AND a fetch; present in both
with the same fileID → no action and the record untouched. -/
theorem c2_diff_partition (old : List (Nat × CacheEntry)) (m : List ManifestFile)
    (hnodup : (objKeys old).Nodup) (pid : Nat) :
    (pid ∈ objKeys old → pid ∉ objKeys (buildNewData m) →
      pid ∈ (diffCacheHit old m).removedLog ∧
      pid ∉ (diffCacheHit old m).updatedLog ∧
      pid ∉ (diffCacheHit old m).dl ∧
      objGet (diffCacheHit old m).working pid = none) ∧
    (pid ∉ objKeys old → pid ∈ objKeys (buildNewData m) →
      pid ∈ (diffCacheHit old m).dl ∧
      pid ∉ (diffCacheHit old m).removedLog ∧
      pid ∉ (diffCacheHit old m).updatedLog) ∧
    (∀ e ne, objGet old pid = some e → objGet (buildNewData m) pid = some ne →
      e.fileID ≠ ne.fileID →
      pid ∈ (diffCacheHit old m).updatedLog ∧
      pid ∈ (diffCacheHit old m).dl ∧
      Event.rm (rmPath e) ∈ (diffCacheHit old m).events ∧
      pid ∉ (diffCacheHit old m).removedLog) ∧
    (∀ e ne, objGet old pid = some e → objGet (buildNewData m) pid = some ne →
      e.fileID = ne.fileID →
      pid ∉ (diffCacheHit old m).removedLog ∧
      pid ∉ (diffCacheHit old m).updatedLog ∧
      pid ∉ (diffCacheHit old m).dl ∧
      objGet (diffCacheHit old m).working pid = objGet old pid) := by
  obtain ⟨d1, d2, d3, d4, d5⟩ := diffCacheHit_closed old m hnodup
  refine ⟨?_, ?_, ?_, ?_⟩
  · intro h1 h2
    have hrm : pid ∈ removedPids old m := (mem_removedPids old m pid).mpr ⟨h1, h2⟩
    have hch : pid ∉ changedPids old m := by
      intro hc
      obtain ⟨ne, e, hnd1, -, -⟩ := (mem_changedPids old m pid).mp hc
      exact h2 (mem_keys_of_objGet_some _ _ _ hnd1)
    have hadd : pid ∉ addedPids old m := by
      intro ha
      exact h2 ((mem_addedPids old m pid).mp ha).1
    refine ⟨by rw [d1]; exact hrm, by rw [d2]; exact hch, ?_, ?_⟩
    · rw [d3]
      intro hmem
      rcases List.mem_append.mp hmem with h3 | h3
      · exact hadd h3
      · exact hch h3
    · rw [d5 pid, if_pos hrm]
  · intro h1 h2
    have hadd : pid ∈ addedPids old m := (mem_addedPids old m pid).mpr ⟨h2, h1⟩
    have hrm : pid ∉ removedPids old m := by
      intro hr
      exact h1 ((mem_removedPids old m pid).mp hr).1
    have hch : pid ∉ changedPids old m := by
      intro hc
      obtain ⟨ne, e, -, hold1, -⟩ := (mem_changedPids old m pid).mp hc
      exact h1 (mem_keys_of_objGet_some _ _ _ hold1)
    exact ⟨by rw [d3]; exact List.mem_append_left _ hadd,
      by rw [d1]; exact hrm, by rw [d2]; exact hch⟩
  · intro e ne hold1 hnd1 hdiff
    have hch : pid ∈ changedPids old m :=
      (mem_changedPids old m pid).mpr ⟨ne, e, hnd1, hold1, hdiff⟩
    have hrm : pid ∉ removedPids old m := by
      intro hr
      exact ((mem_removedPids old m pid).mp hr).2 (mem_keys_of_objGet_some _ _ _ hnd1)
    refine ⟨by rw [d2]; exact hch, by rw [d3]; exact List.mem_append_right _ hch, ?_,
      by rw [d1]; exact hrm⟩
    rw [d4]
    have : Event.rm (rmPathOf old pid) ∈
        (removedPids old m ++ changedPids old m).map
          (fun q => Event.rm (rmPathOf old q)) :=
      List.mem_map_of_mem _ (List.mem_append_right _ hch)
    rw [rmPathOf, hold1] at this
    exact this
  · intro e ne hold1 hnd1 heq
    have hrm : pid ∉ removedPids old m := by
      intro hr
      exact ((mem_removedPids old m pid).mp hr).2 (mem_keys_of_objGet_some _ _ _ hnd1)
    have hch : pid ∉ changedPids old m := by
      intro hc
      obtain ⟨ne2, e2, hnd2, hold2, hdiff2⟩ := (mem_changedPids old m pid).mp hc
      rw [hold1] at hold2
      rw [hnd1] at hnd2
      cases hold2
      cases hnd2
      exact hdiff2 heq
    have hadd : pid ∉ addedPids old m := by
      intro ha
      exact ((mem_addedPids old m pid).mp ha).2 (mem_keys_of_objGet_some _ _ _ hold1)
    refine ⟨by rw [d1]; exact hrm, by rw [d2]; exact hch, ?_, ?_⟩
    · rw [d3]
      intro hmem
      rcases List.mem_append.mp hmem with h3 | h3
      · exact hadd h3
      · exact hch h3
    · rw [d5 pid, if_neg hrm, if_neg (by
        intro hmem
        rcases List.mem_append.mp hmem with h3 | h3
        · exact hadd h3
        · exact hch h3)]

/-- C2 witness: old state `{1: fileID 10, 2: fileID 20}`, manifest
`[{1, fileID 11}, {3, fileID 30}]`: artifact 2 is removal-only, artifact
3 fetch-only, artifact 1 removal+fetch. -/
theorem c2_diff_partition_witness :
    (1 ∈ (diffCacheHit
        [(1, ⟨10, true, some "f1.jar"⟩), (2, ⟨20, true, some "f2.jar"⟩)]
        [⟨1, 11, true⟩, ⟨3, 30, true⟩]).updatedLog ∧
      1 ∈ (diffCacheHit
        [(1, ⟨10, true, some "f1.jar"⟩), (2, ⟨20, true, some "f2.jar"⟩)]
        [⟨1, 11, true⟩, ⟨3, 30, true⟩]).dl) ∧
    2 ∈ (diffCacheHit
        [(1, ⟨10, true, some "f1.jar"⟩), (2, ⟨20, true, some "f2.jar"⟩)]
        [⟨1, 11, true⟩, ⟨3, 30, true⟩]).removedLog ∧
    3 ∈ (diffCacheHit
        [(1, ⟨10, true, some "f1.jar"⟩), (2, ⟨20, true, some "f2.jar"⟩)]
        [⟨1, 11, true⟩, ⟨3, 30, true⟩]).dl := by
  have h1 := (c2_diff_partition
    [(1, ⟨10, true, some "f1.jar"⟩), (2, ⟨20, true, some "f2.jar"⟩)]
    [⟨1, 11, true⟩, ⟨3, 30, true⟩] (by decide) 1).2.2.1
    ⟨10, true, some "f1.jar"⟩ ⟨11, true⟩ (by decide) (by decide) (by decide)
  have h2 := ((c2_diff_partition
    [(1, ⟨10, true, some "f1.jar"⟩), (2, ⟨20, true, some "f2.jar"⟩)]
    [⟨1, 11, true⟩, ⟨3, 30, true⟩] (by decide) 2).1 (by decide) (by decide)).1
  have h3 := ((c2_diff_partition
    [(1, ⟨10, true, some "f1.jar"⟩), (2, ⟨20, true, some "f2.jar"⟩)]
    [⟨1, 11, true⟩, ⟨3, 30, true⟩] (by decide) 3).2.1 (by decide) (by decide)).1
  exact ⟨⟨h1.1, h1.2.1⟩, h2, h3⟩

/-! ### C8: `required` is not a diffing input -/

theorem buildNewDataFrom_keys_congr :
    ∀ (m1 m2 : List ManifestFile) (nd1 nd2 : List (Nat × NewEntry)),
    m1.map ManifestFile.projectID = m2.map ManifestFile.projectID →
    objKeys nd1 = objKeys nd2 →
    objKeys (buildNewDataFrom nd1 m1) = objKeys (buildNewDataFrom nd2 m2) := by
  intro m1
  induction m1 with
  | nil =>
      intro m2 nd1 nd2 hm hk
      cases m2 with
      | nil => exact hk
      | cons f rest => cases hm
  | cons f1 rest1 ih =>
      intro m2 nd1 nd2 hm hk
      cases m2 with
      | nil => cases hm
      | cons f2 rest2 =>
          rw [List.map_cons, List.map_cons] at hm
          injection hm with hm1 hm2
          rw [buildNewDataFrom, buildNewDataFrom]
          apply ih rest2 _ _ hm2
          by_cases hmem : f1.projectID ∈ objKeys nd1
          · rw [objKeys_objSet_of_mem _ _ _ hmem,
              objKeys_objSet_of_mem _ _ _ (by rw [← hk, ← hm1]; exact hmem), hk]
          · rw [objKeys_objSet_of_not_mem _ _ _ hmem,
              objKeys_objSet_of_not_mem _ _ _ (by rw [← hk, ← hm1]; exact hmem), hk, hm1]

theorem buildNewDataFrom_fileID_congr :
    ∀ (m1 m2 : List ManifestFile) (nd1 nd2 : List (Nat × NewEntry)),
    m1.map (fun f => (f.projectID, f.fileID)) = m2.map (fun f => (f.projectID, f.fileID)) →
    (∀ q, (objGet nd1 q).map NewEntry.fileID = (objGet nd2 q).map NewEntry.fileID) →
    ∀ q, (objGet (buildNewDataFrom nd1 m1) q).map NewEntry.fileID =
      (objGet (buildNewDataFrom nd2 m2) q).map NewEntry.fileID := by
  intro m1
  induction m1 with
  | nil =>
      intro m2 nd1 nd2 hm hg
      cases m2 with
      | nil => exact hg
      | cons f rest => cases hm
  | cons f1 rest1 ih =>
      intro m2 nd1 nd2 hm hg
      cases m2 with
      | nil => cases hm
      | cons f2 rest2 =>
          rw [List.map_cons, List.map_cons] at hm
          injection hm with hm1 hm2
          have hpid : f1.projectID = f2.projectID := congrArg Prod.fst hm1
          have hfid : f1.fileID = f2.fileID := congrArg Prod.snd hm1
          rw [buildNewDataFrom, buildNewDataFrom]
          apply ih rest2 _ _ hm2
          intro q
          by_cases hq : q = f1.projectID
          · rw [hq, objGet_objSet_self, hpid, objGet_objSet_self]
            simp only [Option.map_some', Option.some.injEq]
            exact hfid
          · rw [objGet_objSet_ne _ _ _ _ hq,
              objGet_objSet_ne _ _ _ _ (by rw [← hpid]; exact hq)]
            exact hg q

theorem buildNewData_keys_congr (m1 m2 : List ManifestFile)
    (h : m1.map (fun f => (f.projectID, f.fileID)) = m2.map (fun f => (f.projectID, f.fileID))) :
    objKeys (buildNewData m1) = objKeys (buildNewData m2) := by
  apply buildNewDataFrom_keys_congr m1 m2 [] [] _ rfl
  have := congrArg (List.map Prod.fst) h
  simpa using this

theorem buildNewData_fileID_congr (m1 m2 : List ManifestFile)
    (h : m1.map (fun f => (f.projectID, f.fileID)) = m2.map (fun f => (f.projectID, f.fileID)))
    (q : Nat) :
    (objGet (buildNewData m1) q).map NewEntry.fileID =
      (objGet (buildNewData m2) q).map NewEntry.fileID :=
  buildNewDataFrom_fileID_congr m1 m2 [] [] h (fun _ => rfl) q

/-- C8: the `required` flag is not a diffing input: two manifests that
agree on their (projectID, fileID) sequences — differing only in
`required` flags — produce identical removal logs, identical update
logs, identical download schedules and identical rm traces, whatever the
previous cache state (present or absent). -/
theorem c8_required_not_diffing_input (cache : Option (List (Nat × CacheEntry)))
    (m1 m2 : List ManifestFile)
    (hnodup : (objKeys (cache.getD [])).Nodup)
    (hproj : m1.map (fun f => (f.projectID, f.fileID)) =
      m2.map (fun f => (f.projectID, f.fileID))) :
    (diffPhase cache m1).removedLog = (diffPhase cache m2).removedLog ∧
    (diffPhase cache m1).updatedLog = (diffPhase cache m2).updatedLog ∧
    (diffPhase cache m1).dl = (diffPhase cache m2).dl ∧
    (diffPhase cache m1).events = (diffPhase cache m2).events := by
  cases cache with
  | none =>
      obtain ⟨n1, n2, n3, n4⟩ := noCacheFrom_closed m1 (initSt [])
      obtain ⟨p1, p2, p3, p4⟩ := noCacheFrom_closed m2 (initSt [])
      rw [diffPhase, diffPhase]
      refine ⟨by rw [n3, p3], by rw [n4, p4], ?_, by rw [n2, p2]⟩
      rw [n1, p1]
      have := congrArg (List.map Prod.fst) hproj
      simpa using this
  | some old =>
      have hnodup' : (objKeys old).Nodup := hnodup
      obtain ⟨d1, d2, d3, d4, d5⟩ := diffCacheHit_closed old m1 hnodup'
      obtain ⟨e1, e2, e3, e4, e5⟩ := diffCacheHit_closed old m2 hnodup'
      have hkeys := buildNewData_keys_congr m1 m2 hproj
      have hrm : removedPids old m1 = removedPids old m2 := by
        rw [removedPids, removedPids, hkeys]
      have hadd : addedPids old m1 = addedPids old m2 := by
        rw [addedPids, addedPids, hkeys]
      have hch : changedPids old m1 = changedPids old m2 := by
        rw [changedPids, changedPids]
        apply List.filter_congr
        intro q hq
        have hfid := buildNewData_fileID_congr m1 m2 hproj q
        rw [changedFilter, changedFilter]
        cases h1 : objGet (buildNewData m1) q with
        | none =>
            cases h2 : objGet (buildNewData m2) q with
            | none => rfl
            | some v2 => rw [h1, h2] at hfid; cases hfid
        | some v1 =>
            cases h2 : objGet (buildNewData m2) q with
            | none => rw [h1, h2] at hfid; cases hfid
            | some v2 =>
                rw [h1, h2] at hfid
                simp only [Option.map_some', Option.some.injEq] at hfid
                cases h3 : objGet old q with
                | none => rfl
                | some e => simp [hfid]
      rw [diffPhase, diffPhase]
      exact ⟨by rw [d1, e1, hrm], by rw [d2, e2, hch], by rw [d3, e3, hadd, hch],
        by rw [d4, e4, hrm, hch]⟩

/-- C8 witness: flipping `required` from true to false changes neither
the schedule nor the logs. -/
theorem c8_required_not_diffing_input_witness :
    (diffPhase (some [(1, ⟨10, true, some "f1.jar"⟩)]) [⟨1, 11, true⟩, ⟨2, 20, true⟩]).dl =
      (diffPhase (some [(1, ⟨10, true, some "f1.jar"⟩)]) [⟨1, 11, false⟩, ⟨2, 20, false⟩]).dl :=
  (c8_required_not_diffing_input (some [(1, ⟨10, true, some "f1.jar"⟩)])
    [⟨1, 11, true⟩, ⟨2, 20, true⟩] [⟨1, 11, false⟩, ⟨2, 20, false⟩]
    (by decide) (by decide)).2.2.1

/-! ### C9 / C10: frame conditions for unchanged artifacts -/

/-- C9: an artifactId present in both the old cache state and the
manifest with the same fileID is untouched: it is never scheduled for
download, no `Juke.rm` of its cached file ever appears in the run's
trace, its working record survives the diff verbatim, and its cached
file is still in the cache directory after the whole run (whether the
run succeeds or fails).  The path-uniqueness hypothesis rules out two
cache entries sharing one file name. -/
theorem c9_unchanged_untouched (resolve : Nat → Nat → Except String String)
    (old : List (Nat × CacheEntry)) (m : List ManifestFile) (pid : Nat)
    (e : CacheEntry) (ne : NewEntry)
    (hnodup : (objKeys old).Nodup)
    (hpaths : (old.map (fun p => rmPath p.2)).Nodup)
    (h1 : objGet old pid = some e)
    (h2 : objGet (buildNewData m) pid = some ne)
    (h3 : e.fileID = ne.fileID) :
    pid ∉ (diffCacheHit old m).dl ∧
    Event.rm (rmPath e) ∉ (runFull resolve (some m) (some (some old))).1 ∧
    objGet (diffCacheHit old m).working pid = some e ∧
    rmPath e ∈ applyEvents (initialDisk old)
      (runFull resolve (some m) (some (some old))).1 := by
  obtain ⟨d1, d2, d3, d4, d5⟩ := diffCacheHit_closed old m hnodup
  have hrm : pid ∉ removedPids old m := by
    intro hr
    exact ((mem_removedPids old m pid).mp hr).2 (mem_keys_of_objGet_some _ _ _ h2)
  have hch : pid ∉ changedPids old m := by
    intro hc
    obtain ⟨ne2, e2, hnd2, hold2, hdiff2⟩ := (mem_changedPids old m pid).mp hc
    rw [h1] at hold2
    rw [h2] at hnd2
    cases hold2
    cases hnd2
    exact hdiff2 h3
  have hadd : pid ∉ addedPids old m := by
    intro ha
    exact ((mem_addedPids old m pid).mp ha).2 (mem_keys_of_objGet_some _ _ _ h1)
  have hdl : pid ∉ (diffCacheHit old m).dl := by
    rw [d3]
    intro hmem
    rcases List.mem_append.mp hmem with h4 | h4
    · exact hadd h4
    · exact hch h4
  have hnotrm : Event.rm (rmPath e) ∉ (runFull resolve (some m) (some (some old))).1 := by
    intro hmem
    obtain ⟨ys, hs1, hs2, -⟩ := runAfterLoad_split resolve (some old) m
    have hmem2 : Event.rm (rmPath e) ∈ (runAfterLoad resolve (some old) m).1 := hmem
    rw [hs1] at hmem2
    rcases List.mem_append.mp hmem2 with h4 | h4
    · rcases List.mem_cons.mp h4 with h5 | h5
      · cases h5
      · have h6 : Event.rm (rmPath e) ∈ (diffCacheHit old m).events := h5
        rw [d4] at h6
        obtain ⟨q, hq1, hq2⟩ := List.mem_map.mp h6
        injection hq2 with hq2
        have hqsome : ∃ eq, objGet old q = some eq := by
          rcases List.mem_append.mp hq1 with h7 | h7
          · have := ((mem_removedPids old m q).mp h7).1
            cases hg : objGet old q with
            | none => exact absurd ((objGet_eq_none_iff old q).mp hg) (by simpa using this)
            | some eq => exact ⟨eq, rfl⟩
          · obtain ⟨ne2, e2, -, hold2, -⟩ := (mem_changedPids old m q).mp h7
            exact ⟨e2, hold2⟩
        obtain ⟨eq, heq⟩ := hqsome
        rw [rmPathOf, heq] at hq2
        have hmem_pid : (pid, e) ∈ old := mem_of_objGet_some _ _ _ h1
        have hmem_q : (q, eq) ∈ old := mem_of_objGet_some _ _ _ heq
        have hpair : (pid, e) = (q, eq) :=
          List.inj_on_of_nodup_map hpaths hmem_pid hmem_q (by simpa using hq2.symm)
        have hpq : pid = q := congrArg Prod.fst hpair
        subst hpq
        rcases List.mem_append.mp hq1 with h7 | h7
        · exact hrm h7
        · exact hch h7
    · rcases hs2 _ h4 with h5 | h5
      · cases h5
      · cases h5
  refine ⟨hdl, hnotrm, ?_, ?_⟩
  · rw [d5 pid, if_neg hrm, if_neg (by
      intro hmem
      rcases List.mem_append.mp hmem with h4 | h4
      · exact hadd h4
      · exact hch h4)]
    exact h1
  · apply mem_applyEvents_of_no_rm _ _ _ _ hnotrm
    rw [initialDisk]
    have : (pid, e) ∈ old := mem_of_objGet_some _ _ _ h1
    exact List.mem_map_of_mem _ this

def c9Old : List (Nat × CacheEntry) :=
  [(1, ⟨10, true, some "f1.jar"⟩), (2, ⟨20, true, some "f2.jar"⟩)]

def c9Man : List ManifestFile := [⟨1, 10, true⟩, ⟨2, 21, true⟩]

def c9Resolve : Nat → Nat → Except String String :=
  fun pid _ => Except.ok ("n" ++ Nat.repr pid ++ ".jar")

/-- C9 witness: artifact 1 is unchanged while artifact 2 updates; 1 is
not scheduled, keeps its record, and its file survives the run. -/
theorem c9_unchanged_untouched_witness :
    1 ∉ (diffCacheHit c9Old c9Man).dl ∧
    objGet (diffCacheHit c9Old c9Man).working 1 = some ⟨10, true, some "f1.jar"⟩ ∧
    rmPath ⟨10, true, some "f1.jar"⟩ ∈
      applyEvents (initialDisk c9Old) (runFull c9Resolve (some c9Man) (some (some c9Old))).1 := by
  have h := c9_unchanged_untouched c9Resolve c9Old c9Man 1
    ⟨10, true, some "f1.jar"⟩ ⟨10, true⟩
    (by decide) (by decide) (by decide) (by decide) (by decide)
  exact ⟨h.1, h.2.2.1, h.2.2.2⟩

/-- C10: for an artifactId present in both the old state and the
manifest with an identical fileID, the entry persisted at the end of a
successful run is the old record verbatim — in particular its `required`
flag is the old one, never refreshed from the manifest. -/
theorem c10_required_not_refreshed (resolve : Nat → Nat → Except String String)
    (old : List (Nat × CacheEntry)) (m : List ManifestFile) (pid : Nat)
    (e : CacheEntry) (ne : NewEntry) (final : List (Nat × CacheEntry))
    (hnodup : (objKeys old).Nodup)
    (h1 : objGet old pid = some e)
    (h2 : objGet (buildNewData m) pid = some ne)
    (h3 : e.fileID = ne.fileID)
    (hok : (runFull resolve (some m) (some (some old))).2 = Except.ok final) :
    objGet final pid = some e ∧
    (objGet final pid).map CacheEntry.required = some e.required := by
  obtain ⟨d1, d2, d3, d4, d5⟩ := diffCacheHit_closed old m hnodup
  have hrm : pid ∉ removedPids old m := by
    intro hr
    exact ((mem_removedPids old m pid).mp hr).2 (mem_keys_of_objGet_some _ _ _ h2)
  have hch : pid ∉ changedPids old m := by
    intro hc
    obtain ⟨ne2, e2, hnd2, hold2, hdiff2⟩ := (mem_changedPids old m pid).mp hc
    rw [h1] at hold2
    rw [h2] at hnd2
    cases hold2
    cases hnd2
    exact hdiff2 h3
  have hadd : pid ∉ addedPids old m := by
    intro ha
    exact ((mem_addedPids old m pid).mp ha).2 (mem_keys_of_objGet_some _ _ _ h1)
  have hdl : pid ∉ (diffCacheHit old m).dl := by
    rw [d3]
    intro hmem
    rcases List.mem_append.mp hmem with h4 | h4
    · exact hadd h4
    · exact hch h4
  have hok2 : (runAfterLoad resolve (some old) m).2 = Except.ok final := hok
  rcases hr : downloadLoop resolve (diffPhase (some old) m).dl
      (diffPhase (some old) m).working
      (Event.mkdir "dist/modcache" :: (diffPhase (some old) m).events) with ⟨ev, res⟩
  rw [runAfterLoad, hr] at hok2
  cases res with
  | error err => cases hok2
  | ok f2 =>
      simp only [] at hok2
      cases hok2
      have hfinal : objGet final pid = objGet (diffPhase (some old) m).working pid :=
        downloadLoop_frame resolve _ _ _ _ (by rw [hr]) pid (by
          rw [diffPhase]
          exact hdl)
      have : objGet final pid = some e := by
        rw [hfinal, diffPhase, d5 pid, if_neg hrm, if_neg (by
          intro hmem
          rcases List.mem_append.mp hmem with h4 | h4
          · exact hadd h4
          · exact hch h4)]
        exact h1
      exact ⟨this, by rw [this]; rfl⟩

/-- C10 witness: the manifest flips `required` to false for an unchanged
artifact; the persisted record still says `required := true`. -/
theorem c10_required_not_refreshed_witness :
    (objGet [(1, (⟨10, true, some "f1.jar"⟩ : CacheEntry))] 1).map CacheEntry.required =
        some true := by
  have h := c10_required_not_refreshed c9Resolve
    [(1, ⟨10, true, some "f1.jar"⟩)] [⟨1, 10, false⟩] 1
    ⟨10, true, some "f1.jar"⟩ ⟨10, false⟩
    [(1, ⟨10, true, some "f1.jar"⟩)]
    (by decide) (by decide) (by decide) (by decide) (by decide)
  exact h.2

/-! ### C7: no orphan files -/

/-- The cache-directory path the download loop would write for `pid`
given the current `dataKeys` object. -/
def dlPath (resolve : Nat → Nat → Except String String)
    (dk : List (Nat × CacheEntry)) (pid : Nat) : Option String :=
  match objGet dk pid with
  | some e =>
      match resolve pid e.fileID with
      | Except.ok fn => some ("dist/modcache/" ++ fn)
      | Except.error _ => none
  | none => none

/-- Invariant carried through the download loop: entries whose `file` is
still absent are exactly the pending ids; entries with a file name are
on disk; every disk file is referenced by exactly one entry; pending
download targets are fresh and pairwise distinct. -/
def DlInv (resolve : Nat → Nat → Except String String) (ids : List Nat)
    (dk : List (Nat × CacheEntry)) (disk : List String) : Prop :=
  (∀ pid e, objGet dk pid = some e → e.file = none → pid ∈ ids) ∧
  (∀ pid ∈ ids, ∀ e, objGet dk pid = some e → e.file = none) ∧
  (∀ pid e fn, objGet dk pid = some e → e.file = some fn →
    ("dist/modcache/" ++ fn) ∈ disk) ∧
  (∀ p ∈ disk, ∃ pid e fn, objGet dk pid = some e ∧ e.file = some fn ∧
    p = "dist/modcache/" ++ fn ∧
    ∀ pid' e' fn', objGet dk pid' = some e' → e'.file = some fn' →
      p = "dist/modcache/" ++ fn' → pid' = pid) ∧
  (∀ pid ∈ ids, ∀ p, dlPath resolve dk pid = some p → p ∉ disk) ∧
  (∀ pid ∈ ids, ∀ pid' ∈ ids, ∀ p, dlPath resolve dk pid = some p →
    dlPath resolve dk pid' = some p → pid = pid')

theorem downloadLoop_ok_inv (resolve : Nat → Nat → Except String String) :
    ∀ (ids : List Nat) (dk : List (Nat × CacheEntry)) (disk : List String)
      (final : List (Nat × CacheEntry)),
    ids.Nodup → DlInv resolve ids dk disk →
    (downloadLoop resolve ids dk []).2 = Except.ok final →
    DlInv resolve [] final (applyEvents disk (downloadLoop resolve ids dk []).1) := by
  intro ids
  induction ids with
  | nil =>
      intro dk disk final hnd hinv hok
      simp only [downloadLoop] at hok ⊢
      cases hok
      exact hinv
  | cons pid rest ih =>
      intro dk disk final hnd hinv hok
      rw [List.nodup_cons] at hnd
      obtain ⟨hpend, hsched, hdisk, huniq, hfresh, hinj⟩ := hinv
      cases hg : objGet dk pid with
      | none => simp only [downloadLoop, hg] at hok; cases hok
      | some e =>
          cases hres : resolve pid e.fileID with
          | error msg => simp only [downloadLoop, hg, hres] at hok; cases hok
          | ok fn =>
              have hstep2 : (downloadLoop resolve (pid :: rest) dk []).2 =
                  (downloadLoop resolve rest
                    (objSet dk pid ⟨e.fileID, e.required, some fn⟩) []).2 := by
                simp only [downloadLoop, hg, hres]
                exact (downloadLoop_shift resolve rest _
                  [Event.download pid e.fileID fn]).2
              have hstep1 : (downloadLoop resolve (pid :: rest) dk []).1 =
                  Event.download pid e.fileID fn ::
                    (downloadLoop resolve rest
                      (objSet dk pid ⟨e.fileID, e.required, some fn⟩) []).1 := by
                simp only [downloadLoop, hg, hres, List.nil_append]
                rw [(downloadLoop_shift resolve rest _
                  [Event.download pid e.fileID fn]).1]
                rfl
              have hfile : e.file = none := hsched pid (by simp) e hg
              have hdlp : dlPath resolve dk pid = some ("dist/modcache/" ++ fn) := by
                simp only [dlPath, hg, hres]
              have hfree : ("dist/modcache/" ++ fn) ∉ disk :=
                hfresh pid (by simp) _ hdlp
              have hdisk2 : applyEvent disk (Event.download pid e.fileID fn) =
                  disk ++ ["dist/modcache/" ++ fn] := by
                simp only [applyEvent, if_neg hfree]
              have hget' : ∀ q, q ≠ pid →
                  objGet (objSet dk pid ⟨e.fileID, e.required, some fn⟩) q =
                    objGet dk q :=
                fun q hq => objGet_objSet_ne _ _ _ _ hq
              have hgetp : objGet (objSet dk pid ⟨e.fileID, e.required, some fn⟩) pid =
                  some ⟨e.fileID, e.required, some fn⟩ := objGet_objSet_self _ _ _
              have hdlp' : ∀ q, q ≠ pid →
                  dlPath resolve (objSet dk pid ⟨e.fileID, e.required, some fn⟩) q =
                    dlPath resolve dk q := by
                intro q hq
                rw [dlPath, dlPath, hget' q hq]
              rw [hstep1]
              show DlInv resolve [] final
                (applyEvents (applyEvent disk (Event.download pid e.fileID fn))
                  (downloadLoop resolve rest
                    (objSet dk pid ⟨e.fileID, e.required, some fn⟩) []).1)
              rw [hdisk2]
              rw [hstep2] at hok
              apply ih _ _ final hnd.2 _ hok
              refine ⟨?_, ?_, ?_, ?_, ?_, ?_⟩
              · intro q e' hq hf
                by_cases hqp : q = pid
                · subst hqp
                  rw [hgetp] at hq
                  cases hq
                  cases hf
                · rw [hget' q hqp] at hq
                  rcases List.mem_cons.mp (hpend q e' hq hf) with h1 | h1
                  · exact absurd h1 hqp
                  · exact h1
              · intro q hqmem e' hq
                have hqp : q ≠ pid := fun hh => hnd.1 (hh ▸ hqmem)
                rw [hget' q hqp] at hq
                exact hsched q (List.mem_cons_of_mem _ hqmem) e' hq
              · intro q e' fn' hq hf
                by_cases hqp : q = pid
                · subst hqp
                  rw [hgetp] at hq
                  cases hq
                  cases hf
                  exact List.mem_append_right _ (by simp)
                · rw [hget' q hqp] at hq
                  exact List.mem_append_left _ (hdisk q e' fn' hq hf)
              · intro p hp
                rcases List.mem_append.mp hp with h1 | h1
                · obtain ⟨pid0, e0, fn0, hg0, hf0, hp0, hu0⟩ := huniq p h1
                  have hp0ne : pid0 ≠ pid := by
                    intro hh
                    rw [hh, hg] at hg0
                    cases hg0
                    rw [hfile] at hf0
                    cases hf0
                  refine ⟨pid0, e0, fn0, by rw [hget' pid0 hp0ne]; exact hg0, hf0, hp0, ?_⟩
                  intro q' e'' fn'' hq' hf'' hp''
                  by_cases hq'p : q' = pid
                  · subst hq'p
                    rw [hgetp] at hq'
                    cases hq'
                    cases hf''
                    exact absurd (hp'' ▸ h1) hfree
                  · rw [hget' q' hq'p] at hq'
                    exact hu0 q' e'' fn'' hq' hf'' hp''
                · rw [List.mem_singleton] at h1
                  subst h1
                  refine ⟨pid, ⟨e.fileID, e.required, some fn⟩, fn, hgetp, rfl, rfl, ?_⟩
                  intro q' e'' fn'' hq' hf'' hp''
                  by_cases hq'p : q' = pid
                  · exact hq'p
                  · rw [hget' q' hq'p] at hq'
                    have := hdisk q' e'' fn'' hq' hf''
                    rw [← hp''] at this
                    exact absurd this hfree
              · intro q hqmem p hq
                have hqp : q ≠ pid := fun hh => hnd.1 (hh ▸ hqmem)
                rw [hdlp' q hqp] at hq
                intro hpmem
                rcases List.mem_append.mp hpmem with h1 | h1
                · exact hfresh q (List.mem_cons_of_mem _ hqmem) p hq h1
                · rw [List.mem_singleton] at h1
                  subst h1
                  exact hqp (hinj q (List.mem_cons_of_mem _ hqmem) pid (by simp) _ hq hdlp)
              · intro q hqmem q' hq'mem p hq hq'
                have hqp : q ≠ pid := fun hh => hnd.1 (hh ▸ hqmem)
                have hq'p : q' ≠ pid := fun hh => hnd.1 (hh ▸ hq'mem)
                rw [hdlp' q hqp] at hq
                rw [hdlp' q' hq'p] at hq'
                exact hinj q (List.mem_cons_of_mem _ hqmem) q'
                  (List.mem_cons_of_mem _ hq'mem) p hq hq'

theorem ndEntry_file (nd : List (Nat × NewEntry)) (pid : Nat) :
    (ndEntry nd pid).file = none := by
  rw [ndEntry]
  cases objGet nd pid <;> rfl

theorem rmPath_some (e : CacheEntry) (fn : String) (h : e.file = some fn) :
    rmPath e = "dist/modcache/" ++ fn := by
  rw [rmPath, h]

/-- The download-loop invariant holds at the exit of the no-cache diff:
the cache directory is empty (first run with nothing cached) and every
working entry is a pending download. -/
theorem diff_exit_inv_noCache (resolve : Nat → Nat → Except String String)
    (m : List ManifestFile)
    (hinj : ∀ pid ∈ (diffPhase none m).dl, ∀ pid' ∈ (diffPhase none m).dl, ∀ p,
      dlPath resolve (diffPhase none m).working pid = some p →
      dlPath resolve (diffPhase none m).working pid' = some p → pid = pid') :
    DlInv resolve (diffPhase none m).dl (diffPhase none m).working [] := by
  have hent := noCacheFrom_entries m (initSt [])
    (by intro q e hq; cases hq)
  refine ⟨?_, ?_, ?_, ?_, ?_, hinj⟩
  · intro pid e hg hf
    exact (hent pid e hg).2
  · intro pid _ e hg
    exact (hent pid e hg).1
  · intro pid e fn hg hf
    have := (hent pid e hg).1
    rw [hf] at this
    cases this
  · intro p hp
    cases hp
  · intro pid _ p _ hp
    cases hp

theorem runAfterLoad_ok_inv (resolve : Nat → Nat → Except String String)
    (c : Option (List (Nat × CacheEntry))) (m : List ManifestFile)
    (tr : List Event) (final : List (Nat × CacheEntry))
    (hdlnodup : (diffPhase c m).dl.Nodup)
    (hInv : DlInv resolve (diffPhase c m).dl (diffPhase c m).working
      (applyEvents (initialDisk (c.getD []))
        (Event.mkdir "dist/modcache" :: (diffPhase c m).events)))
    (hrun : runAfterLoad resolve c m = (tr, Except.ok final)) :
    DlInv resolve [] final (applyEvents (initialDisk (c.getD [])) tr) := by
  rcases hr : downloadLoop resolve (diffPhase c m).dl (diffPhase c m).working
      (Event.mkdir "dist/modcache" :: (diffPhase c m).events) with ⟨ev, res⟩
  rw [runAfterLoad, hr] at hrun
  cases res with
  | error err =>
      simp only [] at hrun
      have := congrArg Prod.snd hrun
      cases this
  | ok f2 =>
      simp only [] at hrun
      have htr : tr = ev ++ saveCacheEvents := (congrArg Prod.fst hrun).symm
      have hfin : f2 = final := by
        have h2 := congrArg Prod.snd hrun
        injection h2
      subst hfin
      have hev : ev = (Event.mkdir "dist/modcache" :: (diffPhase c m).events) ++
          (downloadLoop resolve (diffPhase c m).dl (diffPhase c m).working []).1 := by
        have h := (downloadLoop_shift resolve (diffPhase c m).dl (diffPhase c m).working
          (Event.mkdir "dist/modcache" :: (diffPhase c m).events)).1
        rw [hr] at h
        exact h
      have hok0 : (downloadLoop resolve (diffPhase c m).dl (diffPhase c m).working []).2 =
          Except.ok f2 := by
        have h := (downloadLoop_shift resolve (diffPhase c m).dl (diffPhase c m).working
          (Event.mkdir "dist/modcache" :: (diffPhase c m).events)).2
        rw [hr] at h
        exact h.symm
      have hmain := downloadLoop_ok_inv resolve (diffPhase c m).dl (diffPhase c m).working
        (applyEvents (initialDisk (c.getD []))
          (Event.mkdir "dist/modcache" :: (diffPhase c m).events))
        f2 hdlnodup hInv hok0
      rw [htr, hev]
      rw [List.append_assoc, applyEvents_append, applyEvents_append]
      have hsave : ∀ d : List String, applyEvents d saveCacheEvents = d := fun d => rfl
      rw [hsave]
      exact hmain

/-- The download-loop invariant holds at the exit of the cache-hit diff,
assuming the pre-run no-orphan invariant (the cache directory holds
exactly the loaded state's files, one per entry, all distinct) and a
resolver whose pending targets are fresh and pairwise distinct. -/
theorem diff_exit_inv_cacheHit (resolve : Nat → Nat → Except String String)
    (old : List (Nat × CacheEntry)) (m : List ManifestFile)
    (hnodup : (objKeys old).Nodup)
    (hfiles : ∀ p ∈ old, (Prod.snd p).file.isSome = true)
    (hpaths : (initialDisk old).Nodup)
    (hfresh : ∀ pid ∈ (diffCacheHit old m).dl, ∀ p,
      dlPath resolve (diffCacheHit old m).working pid = some p → p ∉ initialDisk old)
    (hinj : ∀ pid ∈ (diffCacheHit old m).dl, ∀ pid' ∈ (diffCacheHit old m).dl, ∀ p,
      dlPath resolve (diffCacheHit old m).working pid = some p →
      dlPath resolve (diffCacheHit old m).working pid' = some p → pid = pid') :
    DlInv resolve (diffCacheHit old m).dl (diffCacheHit old m).working
      (applyEvents (initialDisk old)
        (Event.mkdir "dist/modcache" :: (diffCacheHit old m).events)) := by
  obtain ⟨d1, d2, d3, d4, d5⟩ := diffCacheHit_closed old m hnodup
  have hdisk1 : ∀ p, p ∈ applyEvents (initialDisk old)
      (Event.mkdir "dist/modcache" :: (diffCacheHit old m).events) ↔
      p ∈ initialDisk old ∧
        p ∉ (removedPids old m ++ changedPids old m).map (rmPathOf old) := by
    intro p
    have h0 : applyEvents (initialDisk old)
        (Event.mkdir "dist/modcache" :: (diffCacheHit old m).events) =
        applyEvents (initialDisk old) (diffCacheHit old m).events := rfl
    rw [h0, d4]
    have h1 : (removedPids old m ++ changedPids old m).map
        (fun pid => Event.rm (rmPathOf old pid)) =
        ((removedPids old m ++ changedPids old m).map (rmPathOf old)).map Event.rm := by
      rw [List.map_map]
      rfl
    rw [h1]
    exact mem_applyEvents_rms _ _ p
  have hRsome : ∀ q ∈ removedPids old m ++ changedPids old m,
      ∃ eq, objGet old q = some eq := by
    intro q hq
    rcases List.mem_append.mp hq with h7 | h7
    · have hk := ((mem_removedPids old m q).mp h7).1
      cases hg : objGet old q with
      | none => exact absurd ((objGet_eq_none_iff old q).mp hg) (by simpa using hk)
      | some eq => exact ⟨eq, rfl⟩
    · obtain ⟨ne2, e2, -, hold2, -⟩ := (mem_changedPids old m q).mp h7
      exact ⟨e2, hold2⟩
  have hinjold : ∀ q eq q' eq', (q, eq) ∈ old → (q', eq') ∈ old →
      rmPath eq = rmPath eq' → q = q' := by
    intro q eq q' eq' hmem hmem' heq
    have hpair : ((q, eq) : Nat × CacheEntry) = (q', eq') :=
      List.inj_on_of_nodup_map hpaths hmem hmem' heq
    exact congrArg Prod.fst hpair
  have hnotrm_of_get : ∀ pid e, objGet old pid = some e →
      pid ∉ removedPids old m → pid ∉ changedPids old m →
      rmPath e ∉ (removedPids old m ++ changedPids old m).map (rmPathOf old) := by
    intro pid e hold1 hnr hnc hmem
    obtain ⟨q, hq1, hq2⟩ := List.mem_map.mp hmem
    obtain ⟨eq, heq⟩ := hRsome q hq1
    rw [rmPathOf, heq] at hq2
    have hpq : q = pid := hinjold q eq pid e (mem_of_objGet_some _ _ _ heq)
      (mem_of_objGet_some _ _ _ hold1) hq2
    subst hpq
    rcases List.mem_append.mp hq1 with h7 | h7
    · exact hnr h7
    · exact hnc h7
  have hdlcases : ∀ pid e, objGet (diffCacheHit old m).working pid = some e →
      (pid ∈ addedPids old m ++ changedPids old m ∧ e = ndEntry (buildNewData m) pid) ∨
      (pid ∉ removedPids old m ∧ pid ∉ addedPids old m ++ changedPids old m ∧
        objGet old pid = some e) := by
    intro pid e hg
    rw [d5 pid] at hg
    by_cases h1 : pid ∈ removedPids old m
    · rw [if_pos h1] at hg
      cases hg
    · rw [if_neg h1] at hg
      by_cases h2 : pid ∈ addedPids old m ++ changedPids old m
      · rw [if_pos h2] at hg
        injection hg with hg
        exact Or.inl ⟨h2, hg.symm⟩
      · rw [if_neg h2] at hg
        exact Or.inr ⟨h1, h2, hg⟩
  refine ⟨?_, ?_, ?_, ?_, ?_, hinj⟩
  · -- pending entries are scheduled
    intro pid e hg hf
    rcases hdlcases pid e hg with ⟨h2, -⟩ | ⟨-, -, hold1⟩
    · rw [d3]
      exact h2
    · have := hfiles (pid, e) (mem_of_objGet_some _ _ _ hold1)
      rw [hf] at this
      cases this
  · -- scheduled entries are pending
    intro pid hmem e hg
    rw [d3] at hmem
    rcases hdlcases pid e hg with ⟨-, h3⟩ | ⟨-, h2, -⟩
    · rw [h3]
      exact ndEntry_file _ _
    · exact absurd hmem h2
  · -- materialized entries are on disk
    intro pid e fn hg hf
    rcases hdlcases pid e hg with ⟨-, h3⟩ | ⟨h1, h2, hold1⟩
    · rw [h3, ndEntry_file] at hf
      cases hf
    · rw [hdisk1]
      have hnc : pid ∉ changedPids old m := fun hh => h2 (List.mem_append_right _ hh)
      constructor
      · rw [← rmPath_some e fn hf, initialDisk]
        exact List.mem_map_of_mem _ (mem_of_objGet_some _ _ _ hold1)
      · rw [← rmPath_some e fn hf]
        exact hnotrm_of_get pid e hold1 h1 hnc
  · -- every disk file is uniquely referenced
    intro p hp
    rw [hdisk1] at hp
    obtain ⟨hp1, hp2⟩ := hp
    rw [initialDisk] at hp1
    obtain ⟨pr, hpr, hpval⟩ := List.mem_map.mp hp1
    have hprmem : (pr.1, pr.2) ∈ old := by
      rw [Prod.mk.eta]
      exact hpr
    have hold1 : objGet old pr.1 = some pr.2 := objGet_some_of_mem _ _ _ hnodup hprmem
    have hfs := hfiles pr hpr
    obtain ⟨fn, hfn⟩ : ∃ fn, pr.2.file = some fn := by
      cases hh : pr.2.file with
      | none => rw [hh] at hfs; cases hfs
      | some fn => exact ⟨fn, rfl⟩
    have hnr : pr.1 ∉ removedPids old m := by
      intro hh
      apply hp2
      rw [← hpval]
      have : rmPathOf old pr.1 = rmPath pr.2 := by rw [rmPathOf, hold1]
      rw [← this]
      exact List.mem_map_of_mem _ (List.mem_append_left _ hh)
    have hnc : pr.1 ∉ changedPids old m := by
      intro hh
      apply hp2
      rw [← hpval]
      have : rmPathOf old pr.1 = rmPath pr.2 := by rw [rmPathOf, hold1]
      rw [← this]
      exact List.mem_map_of_mem _ (List.mem_append_right _ hh)
    have hna : pr.1 ∉ addedPids old m := by
      intro hh
      exact ((mem_addedPids old m pr.1).mp hh).2 (mem_keys_of_objGet_some _ _ _ hold1)
    have hwork : objGet (diffCacheHit old m).working pr.1 = some pr.2 := by
      rw [d5 pr.1, if_neg hnr, if_neg (by
        intro hmm
        rcases List.mem_append.mp hmm with h7 | h7
        · exact hna h7
        · exact hnc h7)]
      exact hold1
    refine ⟨pr.1, pr.2, fn, hwork, hfn, by rw [← hpval, rmPath_some pr.2 fn hfn], ?_⟩
    intro q' e'' fn'' hq' hf'' hp''
    rcases hdlcases q' e'' hq' with ⟨-, h3⟩ | ⟨-, -, hold2⟩
    · rw [h3, ndEntry_file] at hf''
      cases hf''
    · apply hinjold q' e'' pr.1 pr.2 (mem_of_objGet_some _ _ _ hold2) hprmem
      rw [rmPath_some e'' fn'' hf'', rmPath_some pr.2 fn hfn, ← hp'', ← hpval,
        rmPath_some pr.2 fn hfn]
  · -- pending targets are fresh
    intro pid hmem p hdl hp
    rw [hdisk1] at hp
    exact hfresh pid hmem p hdl hp.1

/-- The cache object `runFull` hands to `runAfterLoad` (`some old` when
`dist/cache.json` parsed, `none` when absent; the corrupt case never
reaches the diff). -/
def cacheOpt : Option (Option (List (Nat × CacheEntry))) →
    Option (List (Nat × CacheEntry))
  | some (some o) => some o
  | _ => none

theorem dlInv_final_extract (resolve : Nat → Nat → Except String String)
    (final : List (Nat × CacheEntry)) (disk : List String)
    (h : DlInv resolve [] final disk) :
    (∀ pid e, objGet final pid = some e → ∃ fn, e.file = some fn ∧
      ("dist/modcache/" ++ fn) ∈ disk) ∧
    (∀ p ∈ disk, ∃ pid e fn, objGet final pid = some e ∧ e.file = some fn ∧
      p = "dist/modcache/" ++ fn ∧
      ∀ pid' e' fn', objGet final pid' = some e' → e'.file = some fn' →
        p = "dist/modcache/" ++ fn' → pid' = pid) := by
  obtain ⟨f1, f2, f3, f4, -, -⟩ := h
  constructor
  · intro pid e hg
    cases hh : e.file with
    | none => exact absurd (f1 pid e hg hh) (List.not_mem_nil pid)
    | some fn => exact ⟨fn, rfl, f3 pid e fn hg hh⟩
  · exact f4

/-- C7: after every successful run, every file in the cache directory is
referenced by exactly one entry of the persisted CacheState and every
entry's file is in the cache directory.  The hypotheses encode the
pre-run no-orphan invariant (the directory holds exactly the loaded
state's files, pairwise distinct — spec §3) and a resolver whose
download targets are fresh and pairwise distinct. -/
theorem c7_no_orphan_files (resolve : Nat → Nat → Except String String)
    (m : List ManifestFile) (cacheRaw : Option (Option (List (Nat × CacheEntry))))
    (tr : List Event) (final : List (Nat × CacheEntry))
    (hnodup : (objKeys ((cacheOpt cacheRaw).getD [])).Nodup)
    (hfiles : ∀ p ∈ (cacheOpt cacheRaw).getD [], (Prod.snd p).file.isSome = true)
    (hpaths : (initialDisk ((cacheOpt cacheRaw).getD [])).Nodup)
    (hdlnodup : (diffPhase (cacheOpt cacheRaw) m).dl.Nodup)
    (hfresh : ∀ pid ∈ (diffPhase (cacheOpt cacheRaw) m).dl, ∀ p,
      dlPath resolve (diffPhase (cacheOpt cacheRaw) m).working pid = some p →
      p ∉ initialDisk ((cacheOpt cacheRaw).getD []))
    (hinj : ∀ pid ∈ (diffPhase (cacheOpt cacheRaw) m).dl,
      ∀ pid' ∈ (diffPhase (cacheOpt cacheRaw) m).dl, ∀ p,
      dlPath resolve (diffPhase (cacheOpt cacheRaw) m).working pid = some p →
      dlPath resolve (diffPhase (cacheOpt cacheRaw) m).working pid' = some p →
      pid = pid')
    (hrun : runFull resolve (some m) cacheRaw = (tr, Except.ok final)) :
    (∀ pid e, objGet final pid = some e → ∃ fn, e.file = some fn ∧
      ("dist/modcache/" ++ fn) ∈
        applyEvents (initialDisk ((cacheOpt cacheRaw).getD [])) tr) ∧
    (∀ p ∈ applyEvents (initialDisk ((cacheOpt cacheRaw).getD [])) tr,
      ∃ pid e fn, objGet final pid = some e ∧ e.file = some fn ∧
        p = "dist/modcache/" ++ fn ∧
        ∀ pid' e' fn', objGet final pid' = some e' → e'.file = some fn' →
          p = "dist/modcache/" ++ fn' → pid' = pid) := by
  cases cacheRaw with
  | none =>
      have hev : (diffPhase none m).events = [] := (noCacheFrom_closed m (initSt [])).2.1
      have hInv0 : DlInv resolve (diffPhase none m).dl (diffPhase none m).working [] :=
        diff_exit_inv_noCache resolve m hinj
      have hInv : DlInv resolve (diffPhase none m).dl (diffPhase none m).working
          (applyEvents (initialDisk ((none : Option (List (Nat × CacheEntry))).getD []))
            (Event.mkdir "dist/modcache" :: (diffPhase none m).events)) := by
        rw [hev]
        exact hInv0
      exact dlInv_final_extract resolve final _
        (runAfterLoad_ok_inv resolve none m tr final hdlnodup hInv hrun)
  | some oldOpt =>
      cases oldOpt with
      | none =>
          have h2 := congrArg Prod.snd hrun
          cases h2
      | some old =>
          have hInv : DlInv resolve (diffPhase (some old) m).dl
              (diffPhase (some old) m).working
              (applyEvents
                (initialDisk ((some old : Option (List (Nat × CacheEntry))).getD []))
                (Event.mkdir "dist/modcache" :: (diffPhase (some old) m).events)) :=
            diff_exit_inv_cacheHit resolve old m hnodup hfiles hpaths hfresh hinj
          exact dlInv_final_extract resolve final _
            (runAfterLoad_ok_inv resolve (some old) m tr final hdlnodup hInv hrun)

def c7Resolve : Nat → Nat → Except String String :=
  fun pid _ => Except.ok ("n" ++ Nat.repr pid ++ ".jar")

def c7Old : List (Nat × CacheEntry) := [(1, ⟨10, true, some "f1.jar"⟩)]

def c7Man : List ManifestFile := [⟨1, 10, true⟩, ⟨2, 20, true⟩]

/-- C7 witness: one cached artifact kept, one new artifact downloaded:
the persisted entry for artifact 2 has its freshly downloaded file in
the final cache directory. -/
theorem c7_no_orphan_files_witness :
    ∃ fn, (⟨20, true, some "n2.jar"⟩ : CacheEntry).file = some fn ∧
      ("dist/modcache/" ++ fn) ∈
        applyEvents (initialDisk ((cacheOpt (some (some c7Old))).getD []))
          [Event.mkdir "dist/modcache", Event.download 2 20 "n2.jar",
            Event.writeFile "dist/cache.json"] :=
  (c7_no_orphan_files c7Resolve c7Man (some (some c7Old))
    [Event.mkdir "dist/modcache", Event.download 2 20 "n2.jar",
      Event.writeFile "dist/cache.json"]
    [(1, ⟨10, true, some "f1.jar"⟩), (2, ⟨20, true, some "n2.jar"⟩)]
    (by decide) (by decide) (by decide) (by decide) (by decide) (by decide)
    (by decide)).1 2 ⟨20, true, some "n2.jar"⟩ (by decide)
